import Mathlib

/-!
Verification of the eventbus-fsm conversational FSM orchestrator.

This file gives a shallow embedding, in Lean 4, of the TypeScript source under
`apps/server/src/internal` (flow.ts, flow-parser.ts, the session manager,
flow-service.ts) together with the mock classifier and the tool-worker
wrappers, and proves properties of that embedding.

Modelling conventions:
* JavaScript values are modelled by the inductive `Value`
  (null / bool / number / string / array / object).  JS numbers are modelled
  by `JNum`, exact rationals in lowest terms (the code under verification
  only manipulates numbers with short exact decimal expansions, far from any
  floating-point rounding).
* Objects are association lists in insertion order, which matches the
  observable key order of JS objects (`Object.entries`, `Object.keys`).
* Redis is modelled by an explicit single-session store threaded through the
  operations; the append-only event stream is a Lean list (the monotone
  per-session `seq` of an event is its list index).
* `uuidv4()` is modelled by a fresh-name counter in the store.
* String algorithms work on `List Char`; `String` is used only at the
  boundary of definitions.  All definitions are structurally recursive (some
  with an ample fuel argument), so concrete runs evaluate by `rfl`/`decide`.
* Real-time aspects (setTimeout delays, tool timeouts, the retry delay) have
  no behavioural model; a delay is a no-op and the timeout branch of
  `Promise.race` is not taken.  The deferred re-ask scheduled by
  `processIntent` after `intent.unhandled` is likewise outside the model.
-/

namespace EventBusFSM

/-! ### Exact rational numbers with kernel-computable arithmetic -/

/-- A JS number: an exact rational in lowest terms with positive
denominator. -/
structure JNum where
  n : Int
  d : Nat
deriving DecidableEq

namespace JNum

/-- Normalizing constructor (denominator expected positive). -/
def mk' (n : Int) (d : Nat) : JNum :=
  if d = 0 then ⟨0, 1⟩
  else
    let g := Nat.gcd n.natAbs d
    ⟨n / (g : Int), d / g⟩

/-- Embed a natural number. -/
def ofNat (n : Nat) : JNum := ⟨n, 1⟩

/-- Embed an integer. -/
def ofInt (n : Int) : JNum := ⟨n, 1⟩

instance : OfNat JNum k := ⟨ofNat k⟩

/-- Addition. -/
def add (a b : JNum) : JNum := mk' (a.n * b.d + b.n * a.d) (a.d * b.d)

/-- Multiplication. -/
def mul (a b : JNum) : JNum := mk' (a.n * b.n) (a.d * b.d)

/-- Division (only ever applied to nonzero denominators in this
development). -/
def div (a b : JNum) : JNum :=
  let num := a.n * (b.d : Int)
  let den := b.n * (a.d : Int)
  if den < 0 then mk' (-num) (-den).toNat else mk' num den.toNat

/-- Negation. -/
def neg (a : JNum) : JNum := ⟨-a.n, a.d⟩

/-- Strict order. -/
def lt (a b : JNum) : Bool := a.n * b.d < b.n * a.d

/-- Non-strict order. -/
def le (a b : JNum) : Bool := a.n * b.d ≤ b.n * a.d

/-- Ten to a natural power. -/
def pow10 (k : Nat) : JNum := ⟨(10 : Int) ^ k, 1⟩

/-- Build `sign * (ip + fnum / 10^fscale)` — the value of a parsed decimal
literal. -/
def ofDecimal (sign : Int) (ip fnum fscale : Nat) : JNum :=
  mk' (sign * ((ip : Int) * (10 : Int) ^ fscale + (fnum : Int))) (10 ^ fscale)

/-- JS `String(number)` for numbers with terminating decimal expansion
(all numbers produced by the embedded code are of this kind). -/
def render (q : JNum) : String :=
  if q.d = 1 then toString q.n
  else
    match (List.range 31).find? (fun k => (10 : Nat) ^ k % q.d = 0) with
    | some k =>
        let scaled : Int := q.n * ((10 : Nat) ^ k / q.d : Nat)
        let sign := if scaled < 0 then "-" else ""
        let digits := toString scaled.natAbs
        let digits := if digits.length ≤ k then
            String.mk (List.replicate (k + 1 - digits.length) '0') ++ digits
          else digits
        let whole := digits.take (digits.length - k)
        let frac := digits.drop (digits.length - k)
        sign ++ whole ++ "." ++ frac
    | none => toString q.n ++ "/" ++ toString q.d

end JNum

/-- JSON-like runtime values (the `any` of the TypeScript source). -/
inductive Value where
  | vnull
  | vbool (b : Bool)
  | vnum (q : JNum)
  | vstr (s : String)
  | vlist (items : List Value)
  | vobj (fields : List (String × Value))

/-- An environment (JS object used as a record), in insertion order. -/
abbrev Env := List (String × Value)

/-! ### Character-list string helpers (JS string primitives) -/

/-- ASCII lower-casing of one character (non-ASCII characters unchanged). -/
def lowerChar (c : Char) : Char :=
  if 'A' ≤ c ∧ c ≤ 'Z' then Char.ofNat (c.toNat + 32) else c

/-- ASCII lower-casing (`String.prototype.toLowerCase` on ASCII input). -/
def lowerList (l : List Char) : List Char := l.map lowerChar

/-- JS whitespace test for `trim` and `\s`. -/
def isWsChar (c : Char) : Bool :=
  c = ' ' ∨ c = '\t' ∨ c = '\n' ∨ c = '\r' ∨ c = '\x0b' ∨ c = '\x0c'

/-- Drop leading whitespace. -/
def dropWs (l : List Char) : List Char := l.dropWhile isWsChar

/-- JS `String.prototype.trim`. -/
def trimList (l : List Char) : List Char :=
  (dropWs ((dropWs l.reverse)).reverse)

/-- Decide whether `pat` occurs at the start of `l`, returning the remainder. -/
def matchPre : List Char → List Char → Option (List Char)
  | [], rest => some rest
  | _, [] => none
  | p :: ps, c :: cs => if p = c then matchPre ps cs else none

/-- JS `String.prototype.includes` / substring occurrence test. -/
def hasSub (pat : List Char) : List Char → Bool
  | [] => (matchPre pat []).isSome
  | c :: cs => (matchPre pat (c :: cs)).isSome || hasSub pat cs

/-- JS `String.prototype.startsWith`. -/
def startsWithList (pat l : List Char) : Bool := (matchPre pat l).isSome

/-- JS `String.prototype.endsWith`. -/
def endsWithList (pat l : List Char) : Bool :=
  startsWithList pat.reverse l.reverse

theorem matchPre_length (pat : List Char) :
    ∀ l rest, matchPre pat l = some rest → rest.length + pat.length = l.length := by
  induction pat with
  | nil =>
      intro l rest h
      simp [matchPre] at h
      simp [h]
  | cons p ps ih =>
      intro l rest h
      cases l with
      | nil => simp [matchPre] at h
      | cons c cs =>
          by_cases hpc : p = c
          · simp [matchPre, hpc] at h
            have := ih cs rest h
            simp [List.length]
            omega
          · simp [matchPre, hpc] at h

/-- Fuel-bounded body of `splitOnList` (fuel strictly exceeds the input
length, so the fuel never runs out). -/
def splitOnListF (sep : List Char) : Nat → List Char → List (List Char)
  | 0, l => [l]
  | fuel + 1, l =>
    match matchPre sep l with
    | some rest =>
        if sep.isEmpty then [l] else [] :: splitOnListF sep fuel rest
    | none =>
      match l with
      | [] => [[]]
      | c :: cs =>
        match splitOnListF sep fuel cs with
        | [] => [[c]]
        | piece :: pieces => (c :: piece) :: pieces

/-- JS `String.prototype.split` with a plain (non-regex, nonempty) separator:
split at every occurrence, keeping empty pieces. -/
def splitOnList (sep l : List Char) : List (List Char) :=
  splitOnListF sep (l.length + 1) l

/-- Digit test. -/
def isDigitChar (c : Char) : Bool := '0' ≤ c ∧ c ≤ '9'

/-- Numeric value of a digit run. -/
def natOfDigits (l : List Char) : Nat :=
  l.foldl (fun n c => 10 * n + (c.toNat - 48)) 0

/-- Parse a canonical decimal numeral (for array indexing in property
access). -/
def decNat? (l : List Char) : Option Nat :=
  if l ≠ [] ∧ l.all isDigitChar ∧ (l.head? = some '0' → l = ['0']) then
    some (natOfDigits l)
  else none

/-! ### Value access and JS string coercion -/

namespace Value

/-- Property access `current?.[prop]` used by `getNestedProperty`:
association-list lookup on objects, index/length on arrays and strings,
`undefined` (none) otherwise. -/
def getProp : Value → String → Option Value
  | vobj fields, k => (fields.find? (fun p => p.1 = k)).map (fun p => p.2)
  | vlist items, k =>
      if k = "length" then some (vnum (JNum.ofNat items.length))
      else match decNat? k.data with
        | some i => items.get? i
        | none => none
  | vstr s, k =>
      if k = "length" then some (vnum (JNum.ofNat s.data.length))
      else match decNat? k.data with
        | some i => (s.data.get? i).map (fun c => vstr (String.mk [c]))
        | none => none
  | _, _ => none

/-- JS truthiness (`Boolean(v)`). -/
def truthy : Value → Bool
  | vnull => false
  | vbool b => b
  | vnum q => q.n ≠ 0
  | vstr s => s ≠ ""
  | vlist _ => true
  | vobj _ => true

end Value

/-- The field walk of `TemplateResolver.getNestedProperty`:
`path.split('.').reduce((current, prop) => current?.[prop], obj)`. -/
def getNested (root : Value) (path : String) : Option Value :=
  ((splitOnList ['.'] path.data).map String.mk).foldl
    (fun current prop => current.bind (fun v => v.getProp prop)) (some root)

mutual
/-- Fuel-bounded body of `jsToString` (the fuel bounds nesting depth; every
value handled in this development is shallow). -/
def jsToStringF : Nat → Value → String
  | 0, _ => ""
  | _ + 1, .vnull => "null"
  | _ + 1, .vbool b => if b then "true" else "false"
  | _ + 1, .vnum q => q.render
  | _ + 1, .vstr s => s
  | fuel + 1, .vlist items => jsListToStringF fuel items
  | _ + 1, .vobj _ => "[object Object]"

/-- JS `Array.prototype.toString`: elements joined by commas, null elements
printing as the empty string. -/
def jsListToStringF : Nat → List Value → String
  | 0, _ => ""
  | _ + 1, [] => ""
  | fuel + 1, [v] => jsElemToStringF fuel v
  | fuel + 1, v :: rest => jsElemToStringF fuel v ++ "," ++ jsListToStringF fuel rest

/-- One array element under `Array.prototype.toString`. -/
def jsElemToStringF : Nat → Value → String
  | 0, _ => ""
  | _ + 1, .vnull => ""
  | fuel + 1, v => jsToStringF fuel v
end

/-- JS string coercion `String(v)` (nesting depth capped at 1000, far beyond
any value the engine builds). -/
def jsToString (v : Value) : String := jsToStringF 1000 v

/-! ### A model of `JSON.parse` (used by the lenient parse step of
`TemplateResolver.resolve`) -/

/-- JSON structural whitespace. -/
def isJsonWs (c : Char) : Bool := c = ' ' ∨ c = '\t' ∨ c = '\n' ∨ c = '\r'

/-- Skip JSON whitespace. -/
def skipJsonWs (l : List Char) : List Char := l.dropWhile isJsonWs

/-- Hex digit value, if any. -/
def hexVal (c : Char) : Option Nat :=
  if '0' ≤ c ∧ c ≤ '9' then some (c.toNat - 48)
  else if 'a' ≤ c ∧ c ≤ 'f' then some (c.toNat - 87)
  else if 'A' ≤ c ∧ c ≤ 'F' then some (c.toNat - 55)
  else none

/-- Parse a JSON string body after the opening quote. -/
def jsonStringRest (fuel : Nat) (acc : List Char) (l : List Char) :
    Option (String × List Char) :=
  match fuel with
  | 0 => none
  | fuel + 1 =>
    match l with
    | [] => none
    | '"' :: rest => some (String.mk acc.reverse, rest)
    | '\\' :: e :: rest =>
      match e with
      | '"' => jsonStringRest fuel ('"' :: acc) rest
      | '\\' => jsonStringRest fuel ('\\' :: acc) rest
      | '/' => jsonStringRest fuel ('/' :: acc) rest
      | 'b' => jsonStringRest fuel ('\x08' :: acc) rest
      | 'f' => jsonStringRest fuel ('\x0c' :: acc) rest
      | 'n' => jsonStringRest fuel ('\n' :: acc) rest
      | 'r' => jsonStringRest fuel ('\r' :: acc) rest
      | 't' => jsonStringRest fuel ('\t' :: acc) rest
      | 'u' =>
        match rest with
        | h1 :: h2 :: h3 :: h4 :: rest' =>
          match hexVal h1, hexVal h2, hexVal h3, hexVal h4 with
          | some a, some b, some c, some d =>
            let n := ((a * 16 + b) * 16 + c) * 16 + d
            jsonStringRest fuel (Char.ofNat n :: acc) rest'
          | _, _, _, _ => none
        | _ => none
      | _ => none
    | c :: rest => jsonStringRest fuel (c :: acc) rest

/-- Parse the integer part of a JSON number (`0` or a nonzero-led digit run). -/
def jsonIntPart : List Char → Option (Nat × List Char)
  | '0' :: rest => some (0, rest)
  | c :: rest =>
      if isDigitChar c ∧ c ≠ '0' then
        let digits := (c :: rest).takeWhile isDigitChar
        some (natOfDigits digits, (c :: rest).dropWhile isDigitChar)
      else none
  | [] => none

/-- Parse an optional JSON fraction part, returning (numerator, scale). -/
def jsonFracPart : List Char → (Nat × Nat) × List Char
  | '.' :: rest =>
      let digits := rest.takeWhile isDigitChar
      if digits.isEmpty then ((0, 0), '.' :: rest)
      else ((natOfDigits digits, digits.length), rest.dropWhile isDigitChar)
  | l => ((0, 0), l)

/-- Parse an optional JSON exponent part. -/
def jsonExpPart : List Char → Option Int × List Char
  | e :: rest =>
      if e = 'e' ∨ e = 'E' then
        let (sign, rest') :=
          match rest with
          | '+' :: r => ((1 : Int), r)
          | '-' :: r => ((-1 : Int), r)
          | r => ((1 : Int), r)
        let digits := rest'.takeWhile isDigitChar
        if digits.isEmpty then (none, e :: rest)
        else (some (sign * natOfDigits digits), rest'.dropWhile isDigitChar)
      else (none, e :: rest)
  | [] => (none, [])

/-- Parse a JSON number at the head of the input. -/
def jsonNumber (l : List Char) : Option (JNum × List Char) :=
  let (sign, l1) :=
    match l with
    | '-' :: r => ((-1 : Int), r)
    | r => ((1 : Int), r)
  match jsonIntPart l1 with
  | none => none
  | some (ip, l2) =>
    match l2.head? with
    | some '.' =>
        -- a dot must be followed by at least one digit
        let ((fnum, fscale), l3) := jsonFracPart l2
        if fscale = 0 then none
        else finishNum sign ip fnum fscale l3
    | _ => finishNum sign ip 0 0 l2
where
  /-- Combine parsed parts with the exponent. -/
  finishNum (sign : Int) (ip fnum fscale : Nat) (l3 : List Char) :
      Option (JNum × List Char) :=
    match jsonExpPart l3 with
    | (none, _) =>
        if (l3.head? = some 'e' ∨ l3.head? = some 'E') then none
        else some (JNum.ofDecimal sign ip fnum fscale, l3)
    | (some ex, l4) =>
        let base := JNum.ofDecimal sign ip fnum fscale
        let p := if ex < 0 then JNum.div 1 (JNum.pow10 ex.natAbs)
          else JNum.pow10 ex.natAbs
        some (base.mul p, l4)

mutual
/-- Parse one JSON value at the head of the input (fuel-bounded recursive
descent; `jsonParse` supplies ample fuel). -/
def jsonValue (fuel : Nat) (l : List Char) : Option (Value × List Char) :=
  match fuel with
  | 0 => none
  | fuel + 1 =>
    match skipJsonWs l with
    | [] => none
    | '{' :: rest =>
      (match skipJsonWs rest with
      | '}' :: rest' => some (.vobj [], rest')
      | other => (jsonMembers fuel other).map (fun p => (.vobj p.1, p.2)))
    | '[' :: rest =>
      (match skipJsonWs rest with
      | ']' :: rest' => some (.vlist [], rest')
      | other => (jsonElems fuel other).map (fun p => (.vlist p.1, p.2)))
    | '"' :: rest =>
      (jsonStringRest (rest.length + 1) [] rest).map (fun p => (.vstr p.1, p.2))
    | 't' :: 'r' :: 'u' :: 'e' :: rest => some (.vbool true, rest)
    | 'f' :: 'a' :: 'l' :: 's' :: 'e' :: rest => some (.vbool false, rest)
    | 'n' :: 'u' :: 'l' :: 'l' :: rest => some (.vnull, rest)
    | other => (jsonNumber other).map (fun p => (.vnum p.1, p.2))

/-- Parse one or more comma-separated `"key": value` members then `}`. -/
def jsonMembers (fuel : Nat) (l : List Char) :
    Option (List (String × Value) × List Char) :=
  match fuel with
  | 0 => none
  | fuel + 1 =>
    match skipJsonWs l with
    | '"' :: rest =>
      match jsonStringRest (rest.length + 1) [] rest with
      | none => none
      | some (key, rest1) =>
        match skipJsonWs rest1 with
        | ':' :: rest2 =>
          match jsonValue fuel rest2 with
          | none => none
          | some (v, rest3) =>
            match skipJsonWs rest3 with
            | ',' :: rest4 =>
              (jsonMembers fuel rest4).map
                (fun p => ((key, v) :: p.1, p.2))
            | '}' :: rest4 => some ([(key, v)], rest4)
            | _ => none
        | _ => none
    | _ => none

/-- Parse one or more comma-separated array elements then `]`. -/
def jsonElems (fuel : Nat) (l : List Char) :
    Option (List Value × List Char) :=
  match fuel with
  | 0 => none
  | fuel + 1 =>
    match jsonValue fuel l with
    | none => none
    | some (v, rest) =>
      match skipJsonWs rest with
      | ',' :: rest1 => (jsonElems fuel rest1).map (fun p => (v :: p.1, p.2))
      | ']' :: rest1 => some ([v], rest1)
      | _ => none
end

/-- Model of `JSON.parse(s)`: parse one value, allow trailing whitespace,
fail on any other trailing input. -/
def jsonParse (s : String) : Option Value :=
  match jsonValue (4 * s.data.length + 8) s.data with
  | none => none
  | some (v, rest) => if skipJsonWs rest = [] then some v else none

/-! ### TemplateResolver (flow-parser.ts lines 6-44) -/

/-- The replacement text for one matched `{{env.path}}` occurrence:
`String(getNestedProperty(env, path) ?? '')`.  Both `undefined` (missing) and
`null` hit the `?? ''` default. -/
def lookupStr (env : Value) (path : String) : String :=
  match getNested env path with
  | none => ""
  | some .vnull => ""
  | some v => jsToString v

/-- Scan `[^}]+\}\}` after a `{{tag.` opener: collect the dotted path (one or
more non-`}` characters) and require a closing `}}`. -/
def scanPath (acc : List Char) : List Char → Option (String × List Char)
  | '}' :: '}' :: rest =>
      if acc.isEmpty then none else some (String.mk acc.reverse, rest)
  | '}' :: _ => none
  | [] => none
  | c :: rest => scanPath (c :: acc) rest

/-- Tag opener characters for a `{{env.` replacement pass. -/
def tagOpen (tag : List Char) : List Char := '{' :: '{' :: (tag ++ ['.'])

/-- Fuel-bounded body of `replacePass` (fuel strictly exceeds the input
length, so the fuel never runs out). -/
def replacePassF (tag : List Char) (env : Value) : Nat → List Char → List Char
  | 0, l => l
  | fuel + 1, l =>
    match l with
    | [] => []
    | c :: cs =>
      match matchPre (tagOpen tag) (c :: cs) with
      | some afterTag =>
        match scanPath [] afterTag with
        | some (path, rest) =>
            (lookupStr env path).data ++ replacePassF tag env fuel rest
        | none => c :: replacePassF tag env fuel cs
      | none => c :: replacePassF tag env fuel cs

/-- One global-replace pass of `template.replace(/\{\{tag\.([^}]+)\}\}/g, ...)`
with the looked-up (or empty) replacement text, scanning left to right. -/
def replacePass (tag : List Char) (env : Value) (l : List Char) : List Char :=
  replacePassF tag env (l.length + 1) l

/-- The post-substitution lenient parse of `TemplateResolver.resolve`:
`JSON.parse` if the whole string is valid JSON, else integer / decimal
coercion via `/^\d+$/` and `/^\d+\.\d+$/`, else the string itself. -/
def lenientParse (s : String) : Value :=
  match jsonParse s with
  | some v => v
  | none =>
    if s.data ≠ [] ∧ s.data.all isDigitChar then .vnum (JNum.ofNat (natOfDigits s.data))
    else
      match splitOnList ['.'] s.data with
      | [ip, fp] =>
          if ip ≠ [] ∧ ip.all isDigitChar ∧ fp ≠ [] ∧ fp.all isDigitChar then
            .vnum (JNum.ofDecimal 1 (natOfDigits ip) (natOfDigits fp) fp.length)
          else .vstr s
      | _ => .vstr s

/-- The string-level substitution of `TemplateResolver.resolve`: a `ctx` pass
always runs; a `slot` pass runs when the slots record is present (JS `if
(slots)` — any record, even empty, is truthy); a `tool` pass runs when the
tool result is present and truthy (JS `if (toolResult)`). -/
def resolveString (s : String) (ctx : Env) (slots : Option Env)
    (tool : Option Value) : String :=
  let step1 := replacePass ['c', 't', 'x'] (.vobj ctx) s.data
  let step2 :=
    match slots with
    | some sl => replacePass ['s', 'l', 'o', 't'] (.vobj sl) step1
    | none => step1
  let step3 :=
    match tool with
    | some t => if t.truthy then replacePass ['t', 'o', 'o', 'l'] t step2 else step2
    | none => step2
  String.mk step3

/-- `TemplateResolver.resolve` (flow-parser.ts lines 7-39): non-string
templates are returned unchanged; strings are substituted then leniently
parsed. -/
def resolve (template : Value) (ctx : Env) (slots : Option Env)
    (tool : Option Value) : Value :=
  match template with
  | .vstr s => lenientParse (resolveString s ctx slots tool)
  | t => t

/-! ### JS comparison semantics used by the expression evaluator -/

/-- `ToPrimitive` for comparison operands: arrays and objects convert via
their string coercion, primitives are unchanged. -/
def toPrim (v : Value) : Value :=
  match v with
  | .vlist _ => .vstr (jsToString v)
  | .vobj _ => .vstr (jsToString v)
  | p => p

/-- JS `ToNumber` on a primitive (`none` models NaN).  String conversion
covers signed decimal literals with optional fraction and exponent, and the
empty/whitespace string as 0; other strings are NaN. -/
def toNumber : Value → Option JNum
  | .vnull => some 0
  | .vbool b => some (if b then 1 else 0)
  | .vnum q => some q
  | .vstr s =>
      let t := trimList s.data
      if t = [] then some 0
      else
        let (sign, t1) :=
          match t with
          | '-' :: r => ((-1 : Int), r)
          | '+' :: r => ((1 : Int), r)
          | r => ((1 : Int), r)
        let ip := t1.takeWhile isDigitChar
        let r1 := t1.dropWhile isDigitChar
        let (fp, r2) :=
          match r1 with
          | '.' :: r => (r.takeWhile isDigitChar, r.dropWhile isDigitChar)
          | r => ([], r)
        if ip = [] ∧ fp = [] then none
        else
          let base := JNum.ofDecimal sign (natOfDigits ip) (natOfDigits fp) fp.length
          match r2 with
          | [] => some base
          | e :: r3 =>
            if e = 'e' ∨ e = 'E' then
              let (esign, r4) :=
                match r3 with
                | '-' :: r => ((-1 : Int), r)
                | '+' :: r => ((1 : Int), r)
                | r => ((1 : Int), r)
              let ed := r4.takeWhile isDigitChar
              if ed = [] ∨ r4.dropWhile isDigitChar ≠ [] then none
              else
                let k := natOfDigits ed
                some (if esign < 0 then base.div (JNum.pow10 k) else base.mul (JNum.pow10 k))
            else none
  | .vlist _ => none
  | .vobj _ => none

/-- Lexicographic char-code comparison of strings (JS `<` on two strings). -/
def strLt : List Char → List Char → Bool
  | [], [] => false
  | [], _ :: _ => true
  | _ :: _, [] => false
  | a :: as, b :: bs => if a.toNat < b.toNat then true
      else if b.toNat < a.toNat then false else strLt as bs

/-- JS abstract relational comparison `x < y`: string-vs-string compares
lexicographically, otherwise both sides convert to numbers (NaN makes the
comparison false). -/
def jsLt (x y : Value) : Bool :=
  match toPrim x, toPrim y with
  | .vstr a, .vstr b => strLt a.data b.data
  | px, py =>
    match toNumber px, toNumber py with
    | some a, some b => a.lt b
    | _, _ => false

/-- JS `x <= y` (false whenever a numeric conversion is NaN). -/
def jsLe (x y : Value) : Bool :=
  match toPrim x, toPrim y with
  | .vstr a, .vstr b => ¬ strLt b.data a.data
  | px, py =>
    match toNumber px, toNumber py with
    | some a, some b => a.le b
    | _, _ => false

/-- JS loose equality `x == y` on the values the evaluator produces.  Two
arrays/objects are never the same reference here (each operand is a fresh
parse), so they compare unequal; otherwise the standard primitive coercion
rules apply. -/
def jsEq (x y : Value) : Bool :=
  match x, y with
  | .vobj _, .vobj _ => false
  | .vobj _, .vlist _ => false
  | .vlist _, .vobj _ => false
  | .vlist _, .vlist _ => false
  | _, _ =>
    match toPrim x, toPrim y with
    | .vnull, .vnull => true
    | .vnull, _ => false
    | _, .vnull => false
    | .vstr a, .vstr b => a = b
    | px, py =>
      match toNumber px, toNumber py with
      | some a, some b => a = b
      | _, _ => false

/-! ### ExpressionEvaluator (flow-parser.ts lines 49-82) -/

/-- The evaluator's operator table, in scan order. -/
def opTable : List (List Char) :=
  [['>', '='], ['<', '='], ['=', '='], ['!', '='], ['>'], ['<'],
   ['&', '&'], ['|', '|']]

/-- Apply one comparison operator to resolved operand values. -/
def applyOp (op : List Char) (l r : Value) : Bool :=
  if op = ['>', '='] then jsLe r l
  else if op = ['<', '='] then jsLe l r
  else if op = ['=', '='] then jsEq l r
  else if op = ['!', '='] then ¬ jsEq l r
  else if op = ['>'] then jsLt r l
  else if op = ['<'] then jsLt l r
  else if op = ['&', '&'] then l.truthy ∧ r.truthy
  else l.truthy ∨ r.truthy

/-- JS `expression.split(op)` followed by taking the first two pieces and
trimming them (the TS destructures `[left, right]`). -/
def splitSides (op expr : List Char) : List Char × List Char :=
  match splitOnList op expr with
  | [] => ([], [])
  | [l] => (trimList l, [])
  | l :: r :: _ => (trimList l, trimList r)

/-- `ExpressionEvaluator.evaluate`: `"else"` is always true; a resolved
boolean is returned directly; otherwise the first operator (in table order)
occurring anywhere in the *unresolved* expression splits it, both sides are
template-resolved (with an empty slots record) and compared; with no
operator, the resolved value's truthiness decides. -/
def evaluate (expression : String) (context : Env)
    (toolResult : Option Value := none) : Bool :=
  if expression = "else" then true
  else
    let resolved := resolve (.vstr expression) context (some []) toolResult
    match resolved with
    | .vbool b => b
    | _ =>
      match opTable.find? (fun op => hasSub op expression.data) with
      | some op =>
          let (l, r) := splitSides op expression.data
          let leftVal := resolve (.vstr (String.mk l)) context (some []) toolResult
          let rightVal := resolve (.vstr (String.mk r)) context (some []) toolResult
          applyOp op leftVal rightVal
      | none => resolved.truthy

/-! ### Flow configuration data model (types.ts) -/

/-- The `onIntent` field: a single intent name or a list. -/
inductive NameSpec where
  | one (s : String)
  | many (l : List String)

/-- A conditional branch of a transition (`{when, to}` in the source; the
fields are named `whenExpr` and `toState` here because `when` and `to` are
reserved tokens in Lean). -/
structure BranchConfig where
  whenExpr : String
  toState : String

/-- A transition of a state (`TransitionConfig`). -/
structure TransitionConfig where
  onIntent : Option NameSpec := none
  onToolResult : Option String := none
  whenExpr : Option String := none
  assign : Option (List (String × Value)) := none
  toState : Option String := none
  branch : Option (List BranchConfig) := none

/-- An onEnter action (`ActionConfig`); the TS interface has all fields
optional and the executor checks each in turn. -/
structure ActionConfig where
  say : Option Value := none
  ask : Option Value := none
  transfer : Option String := none
  hangup : Bool := false
  tool : Option String := none
  args : Option Value := none

/-- A state (`StateConfig`). -/
structure StateConfig where
  onEnter : Option (List ActionConfig) := none
  transitions : Option (List TransitionConfig) := none

/-- An intent definition (`IntentDefinition`): example utterances and
slot-name → slot-type. -/
structure IntentDefinition where
  examples : List String
  slots : List (String × String)

/-- A tool definition (`ToolDefinition`). -/
structure ToolDefinition where
  args : Value
  result : Value
  timeout_ms : Option Nat := none

/-- Flow meta information. -/
structure FlowConfigMeta where
  name : String
  language : Option String := none
  voice : Option String := none

/-- A full flow configuration (`FlowConfig`). -/
structure FlowConfig where
  meta : FlowConfigMeta
  start : String
  intents : List (String × IntentDefinition)
  tools : List (String × ToolDefinition)
  states : List (String × StateConfig)

/-- Association-list lookup (JS `record[key]`). -/
def lookupKey (l : List (String × α)) (k : String) : Option α :=
  (l.find? (fun p => p.1 = k)).map (fun p => p.2)

/-- A classified intent (`NLUIntent`). -/
structure NLUIntent where
  name : String
  confidence : JNum
  slots : Env

/-- The recorded last tool call (timestamps are not modelled). -/
structure ToolCallRec where
  id : String
  name : String
  args : Value

/-- The recorded last tool result (timestamps are not modelled). -/
structure ToolResultRec where
  callId : String
  result : Value

/-- Mutable per-session state (`SessionState`). -/
structure SessionState where
  sessionId : String
  currentState : String
  context : Env
  lastIntent : Option NLUIntent := none
  lastToolCall : Option ToolCallRec := none
  lastToolResult : Option ToolResultRec := none

/-! ### Session store model (SessionManager): one session's Redis records.
Event `seq` numbers are the (monotone, gapless) list indices of `events`;
`nextId` models the `uuidv4()` source. -/

/-- Events emitted on a session's stream (each also carries `sessionId`,
`seq` and `timestamp` in the source; `seq` is the list index here). -/
inductive Event where
  | say (text : Value)
  | ask (text : Value)
  | transfer (target : String)
  | hangup
  | toolCall (tool_call_id name : String) (args : Value)
  | toolResult (tool_call_id : String) (result : Value)
  | toolError (tool_call_id error : String)
  | fsmTransition (src dst : String)
  | stateUpdated (ctx : Env)
  | intentUnhandled (intent : String) (confidence : JNum) (currentState : String)

/-- The lock-free part of the store for one session: the session record,
its bound flow config, the event stream, and the fresh-id counter. -/
structure Data where
  session : Option SessionState
  flow : Option FlowConfig
  events : List Event
  nextId : Nat

/-- The full store for one session: the `lock:S` key plus the data. -/
structure Store where
  locked : Bool
  data : Data

/-- Session-level computations: state threading plus JS exceptions.  A thrown
error carries its message; mutations made before a throw persist (as they do
in Redis). -/
def SessM (α : Type) := Data → Except String α × Data

/-- Unit computation. -/
def SessM.pure (a : α) : SessM α := fun d => (.ok a, d)

/-- Sequencing; an error short-circuits but keeps the store. -/
def SessM.bind (m : SessM α) (f : α → SessM β) : SessM β := fun d =>
  match m d with
  | (.ok a, d') => f a d'
  | (.error e, d') => (.error e, d')

instance : Monad SessM where
  pure := SessM.pure
  bind := SessM.bind

/-- JS `throw new Error(msg)`. -/
def throwErr (msg : String) : SessM α := fun d => (.error msg, d)

/-- JS `try { m } catch (e) { h e }`. -/
def tryCatch (m : SessM α) (h : String → SessM α) : SessM α := fun d =>
  match m d with
  | (.ok a, d') => (.ok a, d')
  | (.error e, d') => h e d'

/-- `getSessionState`. -/
def getSessionState : SessM (Option SessionState) := fun d => (.ok d.session, d)

/-- `getFlowConfig`. -/
def getFlowConfig : SessM (Option FlowConfig) := fun d => (.ok d.flow, d)

/-- `setSessionState`. -/
def setSessionState (s : SessionState) : SessM Unit := fun d =>
  (.ok (), { d with session := some s })

/-- `emitEvent`: increment the sequence counter and append to the stream
(the `seq` of the new event is its index). -/
def emitEvent (e : Event) : SessM Unit := fun d =>
  (.ok (), { d with events := d.events ++ [e] })

/-- A fresh `uuidv4()`. -/
def freshId : SessM String := fun d =>
  (.ok ("uuid-" ++ toString d.nextId), { d with nextId := d.nextId + 1 })

/-- JS object spread `{...base, ...upd}` on records with unique keys:
existing keys keep their position but take the update's value; new keys
append in update order. -/
def mergeSpread (base upd : Env) : Env :=
  (base.map (fun p =>
    match upd.find? (fun q => q.1 = p.1) with
    | some q => (p.1, q.2)
    | none => p))
  ++ upd.filter (fun q => ¬ base.any (fun p => p.1 = q.1))

/-- `SessionManager.updateContext` (flow-parser.ts lines 619-633): shallow
spread-merge of the updates into `context`, then emit `state.updated` with
the new context. -/
def updateContext (updates : Env) : SessM Unit := do
  let s? ← getSessionState
  match s? with
  | none => throwErr "Session not found"
  | some s =>
    let newCtx := mergeSpread s.context updates
    setSessionState { s with context := newCtx }
    emitEvent (.stateUpdated newCtx)

/-- `SessionManager.transitionToState`: record the new `currentState` and
emit `fsm.transition` with the old and new names. -/
def transitionToState (newState : String) : SessM Unit := do
  let s? ← getSessionState
  match s? with
  | none => throwErr "Session not found"
  | some s =>
    let oldState := s.currentState
    setSessionState { s with currentState := newState }
    emitEvent (.fsmTransition oldState newState)

/-- `SessionManager.storeToolCall`: record `lastToolCall` and emit
`tool.call`. -/
def storeToolCall (toolCallId toolName : String) (args : Value) : SessM Unit := do
  let s? ← getSessionState
  match s? with
  | none => throwErr "Session not found"
  | some s =>
    setSessionState { s with lastToolCall := some ⟨toolCallId, toolName, args⟩ }
    emitEvent (.toolCall toolCallId toolName args)

/-- `SessionManager.storeToolResult`: record `lastToolResult` and emit
`tool.result`. -/
def storeToolResult (toolCallId : String) (result : Value) : SessM Unit := do
  let s? ← getSessionState
  match s? with
  | none => throwErr "Session not found"
  | some s =>
    setSessionState { s with lastToolResult := some ⟨toolCallId, result⟩ }
    emitEvent (.toolResult toolCallId result)

/-- `SessionManager.storeIntent`: record `lastIntent` (no event). -/
def storeIntent (intent : NLUIntent) : SessM Unit := do
  let s? ← getSessionState
  match s? with
  | none => throwErr "Session not found"
  | some s => setSessionState { s with lastIntent := some intent }

end EventBusFSM

namespace EventBusFSM

/-! ### Tool workers (flow.ts MockToolWorker, tool-workers.ts SafeToolWorker)

Workers are modelled as an inductive of the worker classes exercised by the
engine: the mock worker (which reports its result back through
`processToolResult` and also returns it), an always-throwing worker, a plain
result-returning worker (the shape of the reservation workers, which
explicitly do not call back), and the `SafeToolWorker` retry wrapper. -/

inductive Worker where
  | mock (mockResults : Env)
  | failing (msg : String)
  | pureW (result : Value)
  | safe (inner : Worker) (maxRetries : Nat)
  | probe (outs : List (Option Value))

/-- The marker event emitted by the `probe` worker on every invocation. -/
def probeMark : Event := .say (.vstr "probe-mark")

/-- Recognize the probe marker. -/
def isProbeMark : Event → Bool
  | .say (.vstr s) => s = "probe-mark"
  | _ => false

/-- Count prior probe invocations recorded on the stream. -/
def countProbeMarks : SessM Nat := fun d =>
  (.ok (d.events.filter isProbeMark).length, d)

/-- The orchestrator's tool registry. -/
abbrev Registry := List (String × Worker)

/-- A classifier implementation: `classifyIntent(userText, intents, context)`
as a pure function (the orchestrator is parametric in it). -/
abbrev Classifier := String → List (String × IntentDefinition) → Env → NLUIntent

/-! ### Fuel-free recursion helpers -/

mutual
/-- Fuel-bounded body of `FSMOrchestrator.resolveToolArgs` (flow.ts lines
378-396): strings resolve as templates, arrays and objects recurse, other
values pass through. -/
def resolveToolArgsF : Nat → Value → Env → Option Env → Option Value → Value
  | 0, t, _, _, _ => t
  | _ + 1, .vstr s, ctx, slots, tool => resolve (.vstr s) ctx slots tool
  | fuel + 1, .vlist items, ctx, slots, tool =>
      .vlist (resolveArgsListF fuel items ctx slots tool)
  | fuel + 1, .vobj fields, ctx, slots, tool =>
      .vobj (resolveArgsFieldsF fuel fields ctx slots tool)
  | _ + 1, t, _, _, _ => t

/-- Array recursion of `resolveToolArgs`. -/
def resolveArgsListF : Nat → List Value → Env → Option Env → Option Value → List Value
  | 0, items, _, _, _ => items
  | _ + 1, [], _, _, _ => []
  | fuel + 1, v :: rest, ctx, slots, tool =>
      resolveToolArgsF fuel v ctx slots tool :: resolveArgsListF fuel rest ctx slots tool

/-- Object recursion of `resolveToolArgs`. -/
def resolveArgsFieldsF : Nat → List (String × Value) → Env → Option Env → Option Value → List (String × Value)
  | 0, fields, _, _, _ => fields
  | _ + 1, [], _, _, _ => []
  | fuel + 1, (k, v) :: rest, ctx, slots, tool =>
      (k, resolveToolArgsF fuel v ctx slots tool) :: resolveArgsFieldsF fuel rest ctx slots tool
end

/-- `FSMOrchestrator.resolveToolArgs` (nesting depth capped far beyond any
real argument template). -/
def resolveToolArgs (t : Value) (ctx : Env) (slots : Option Env)
    (tool : Option Value) : Value :=
  resolveToolArgsF 1000 t ctx slots tool

/-! ### Transition matching (flow.ts lines 194-230) -/

/-- `FSMOrchestrator.matchesIntentTransition`: requires `onIntent`, string
equality or list membership of the intent name, then the optional `when`
guard evaluated against the session context (no tool environment). -/
def matchesIntentTransition (t : TransitionConfig) (intent : NLUIntent)
    (session : SessionState) : Bool :=
  match t.onIntent with
  | none => false
  | some spec =>
    let intentMatches : Bool :=
      match spec with
      | .one s => s == intent.name
      | .many l => l.contains intent.name
    if intentMatches then
      match t.whenExpr with
      | some w => evaluate w session.context none
      | none => true
    else false

/-- `FSMOrchestrator.matchesToolResultTransition`: requires `onToolResult`
equal to the tool name, then the optional `when` guard evaluated with the
tool environment bound to the fresh result. -/
def matchesToolResultTransition (t : TransitionConfig) (toolName : String)
    (result : Value) (session : SessionState) : Bool :=
  match t.onToolResult with
  | none => false
  | some n =>
    if n ≠ toolName then false
    else
      match t.whenExpr with
      | some w => evaluate w session.context (some result)
      | none => true

/-! ### The orchestrator core (flow.ts).  The recursion
(enterState → actions → tool execution → worker → processToolResult →
transitions → enterState) is tied off by fuel: each body is written
non-recursively against the interface `OrchRec` of its callees, and
`mkOrch` instantiates the interface at every fuel level (ample fuel makes
every concrete run complete; level 0 throws `fuel exhausted`). -/

/-- The recursive interface of the orchestrator core. -/
structure OrchRec where
  enterState : String → SessM Unit
  execActions : List ActionConfig → SessionState → FlowConfig → SessM Unit
  executeAction : ActionConfig → SessionState → FlowConfig → SessM Unit
  executeTool : String → Value → SessionState → FlowConfig → SessM Unit
  execWorker : Worker → String → String → Value → SessM Value
  execSafeLoop : Worker → String → String → Value → Nat → Option String → SessM Value
  processToolResult : String → Value → SessM Unit
  processToolResultTransition : SessionState → FlowConfig → String → Value → SessM Unit
  executeTransition : TransitionConfig → SessionState → FlowConfig → Option NLUIntent → Option Value → SessM Unit

/-- `FSMOrchestrator.enterState` (flow.ts lines 82-104): read the session
and flow, require the state to exist, record the transition (emitting
`fsm.transition`), then run the state's `onEnter` actions in order against
the session snapshot read at entry. -/
def enterStateB (rec : OrchRec) (stateName : String) : SessM Unit := do
  let s? ← getSessionState
  let f? ← getFlowConfig
  match s?, f? with
  | some session, some flow =>
    match lookupKey flow.states stateName with
    | none => throwErr ("State " ++ stateName ++ " not found in flow")
    | some state => do
      transitionToState stateName
      match state.onEnter with
      | some actions => rec.execActions actions session flow
      | none => pure ()
  | _, _ => throwErr "Session not found"

/-- The `for (const action of state.onEnter)` loop of `enterState`. -/
def execActionsB (rec : OrchRec) :
    List ActionConfig → SessionState → FlowConfig → SessM Unit
  | [], _, _ => pure ()
  | a :: rest, session, flow => do
      rec.executeAction a session flow
      rec.execActions rest session flow

/-- `FSMOrchestrator.executeAction` (flow.ts lines 281-319): each action
field is checked in turn; `say`/`ask` texts resolve against the snapshot
context with an empty slots record and the last tool result; `transfer` and
`hangup` emit directly; `tool` requires both a name and args. -/
def executeActionB (rec : OrchRec) (action : ActionConfig)
    (session : SessionState) (flow : FlowConfig) : SessM Unit := do
  (match action.say with
   | some t => emitEvent (.say (resolve t session.context (some [])
       (session.lastToolResult.map (fun r => r.result))))
   | none => pure ())
  (match action.ask with
   | some t => emitEvent (.ask (resolve t session.context (some [])
       (session.lastToolResult.map (fun r => r.result))))
   | none => pure ())
  (match action.transfer with
   | some target => emitEvent (.transfer target)
   | none => pure ())
  (if action.hangup then emitEvent .hangup else pure ())
  (match action.tool, action.args with
   | some toolName, some args => rec.executeTool toolName args session flow
   | _, _ => pure ())

/-- `FSMOrchestrator.executeTool` (flow.ts lines 324-373): draw a fresh
tool-call id, resolve the args template, persist the call (emitting
`tool.call`), then run the registered worker and feed its result into
`processToolResult`; a missing worker or any thrown error yields one
`tool.error`.  The per-tool timeout race has no behavioural model. -/
def executeToolB (reg : Registry) (rec : OrchRec) (toolName : String)
    (argsTemplate : Value) (session : SessionState) (_flow : FlowConfig) :
    SessM Unit := do
  let toolCallId ← freshId
  let args := resolveToolArgs argsTemplate session.context (some [])
    (session.lastToolResult.map (fun r => r.result))
  storeToolCall toolCallId toolName args
  match lookupKey reg toolName with
  | none => emitEvent (.toolError toolCallId ("Tool " ++ toolName ++ " not registered"))
  | some worker =>
    tryCatch
      (do let result ← rec.execWorker worker session.sessionId toolCallId args
          rec.processToolResult toolCallId result)
      (fun e => emitEvent (.toolError toolCallId e))

/-- Worker execution.  `mock` is `MockToolWorker.execute` (flow.ts lines
439-453): build the mock result, report it back through
`processToolResult`, then return it.  `failing` always throws.  `pureW`
returns its result (the reservation workers' shape).  `safe` is
`SafeToolWorker.execute` (tool-workers.ts): a bounded retry loop. -/
def execWorkerB (rec : OrchRec) :
    Worker → String → String → Value → SessM Value
  | .mock mockResults, _sid, toolCallId, _args => do
      let result :=
        match lookupKey mockResults "ok" with
        | some okv => Value.vobj [("ok", okv)]
        | none => Value.vobj (("success", .vbool true) :: mockResults)
      rec.processToolResult toolCallId result
      pure result
  | .failing msg, _, _, _ => throwErr msg
  | .pureW v, _, _, _ => pure v
  | .safe inner maxRetries, sid, tid, args =>
      rec.execSafeLoop inner sid tid args maxRetries none
  | .probe outs, _sid, _tid, _args => do
      -- `probe` is not in the source: it is an instrumented ToolWorker
      -- instance (as a test worker would be) that records each invocation
      -- on the stream and succeeds or throws per its script, exposing the
      -- retry wrapper's attempt count to the theorems below.
      let k ← countProbeMarks
      emitEvent probeMark
      match outs.get? k with
      | some (some v) => pure v
      | some none => throwErr ("attempt-" ++ toString k)
      | none => throwErr "script exhausted"

/-- The `for (attempt = 0; attempt < maxRetries; attempt++)` loop of
`SafeToolWorker.execute`, with `attemptsLeft` attempts remaining and the
last caught error.  On success the result returns immediately; each failure
is remembered (the fixed retry delay has no behavioural model); when the
attempts are exhausted the last error (or the default message) is thrown. -/
def execSafeLoopB (rec : OrchRec) (inner : Worker) (sid tid : String)
    (args : Value) : Nat → Option String → SessM Value
  | 0, lastErr => throwErr (lastErr.getD "Tool execution failed after retries")
  | n + 1, _lastErr =>
      tryCatch (rec.execWorker inner sid tid args)
        (fun e => rec.execSafeLoop inner sid tid args n (some e))

/-- `FSMOrchestrator.processToolResult` (flow.ts lines 64-77): read the
session and flow (throwing if missing), persist the result (emitting
`tool.result`), then evaluate tool-result transitions — all WITHOUT
acquiring the session lock. -/
def processToolResultB (rec : OrchRec) (toolCallId : String) (result : Value) :
    SessM Unit := do
  let s? ← getSessionState
  let f? ← getFlowConfig
  match s?, f? with
  | some session, some flow => do
    storeToolResult toolCallId result
    rec.processToolResultTransition session flow toolCallId result
  | _, _ => throwErr "Session not found"

/-- `FSMOrchestrator.processToolResultTransition` (flow.ts lines 169-189):
nothing happens without a current state with transitions or without a
recorded `lastToolCall`; otherwise the first transition whose
`onToolResult` matches `lastToolCall.name` (and whose guard holds) is
executed.  The `toolCallId` parameter is unused, exactly as in the source. -/
def processToolResultTransitionB (rec : OrchRec) (session : SessionState)
    (flow : FlowConfig) (_toolCallId : String) (result : Value) : SessM Unit :=
  match lookupKey flow.states session.currentState with
  | none => pure ()
  | some currentState =>
    match currentState.transitions with
    | none => pure ()
    | some transitions =>
      match session.lastToolCall with
      | none => pure ()
      | some tc =>
        match transitions.find? (fun t =>
            matchesToolResultTransition t tc.name result session) with
        | some t => rec.executeTransition t session flow none (some result)
        | none => pure ()

/-- `FSMOrchestrator.executeTransition` (flow.ts lines 235-276): resolve and
apply the `assign` templates against the snapshot context (emitting
`state.updated`), then: with a `branch`, re-read the session and enter the
first branch whose guard holds against the updated context; with no matching
branch (or no branch at all), enter `to` when present. -/
def executeTransitionB (rec : OrchRec) (transition : TransitionConfig)
    (session : SessionState) (_flow : FlowConfig) (intent? : Option NLUIntent)
    (toolResult? : Option Value) : SessM Unit := do
  (match transition.assign with
   | some entries =>
      updateContext (entries.map (fun p =>
        (p.1, resolve p.2 session.context (intent?.map (fun i => i.slots)) toolResult?)))
   | none => pure ())
  (match transition.branch with
   | some branches => do
      let us? ← getSessionState
      match us? with
      | none => pure ()
      | some us =>
        match branches.find? (fun b => evaluate b.whenExpr us.context toolResult?) with
        | some b => rec.enterState b.toState
        | none =>
          match transition.toState with
          | some target => rec.enterState target
          | none => pure ()
   | none =>
      match transition.toState with
      | some target => rec.enterState target
      | none => pure ())

/-- The fuel-exhausted interface: every call throws. -/
def orchStop : OrchRec where
  enterState := fun _ => throwErr "fuel exhausted"
  execActions := fun _ _ _ => throwErr "fuel exhausted"
  executeAction := fun _ _ _ => throwErr "fuel exhausted"
  executeTool := fun _ _ _ _ => throwErr "fuel exhausted"
  execWorker := fun _ _ _ _ => throwErr "fuel exhausted"
  execSafeLoop := fun _ _ _ _ _ _ => throwErr "fuel exhausted"
  processToolResult := fun _ _ => throwErr "fuel exhausted"
  processToolResultTransition := fun _ _ _ _ => throwErr "fuel exhausted"
  executeTransition := fun _ _ _ _ _ => throwErr "fuel exhausted"

/-- Tie the recursive knot at each fuel level. -/
def mkOrch (reg : Registry) : Nat → OrchRec
  | 0 => orchStop
  | fuel + 1 =>
    let rec' := mkOrch reg fuel
    { enterState := enterStateB rec'
      execActions := execActionsB rec'
      executeAction := executeActionB rec'
      executeTool := executeToolB reg rec'
      execWorker := execWorkerB rec'
      execSafeLoop := execSafeLoopB rec'
      processToolResult := processToolResultB rec'
      processToolResultTransition := processToolResultTransitionB rec'
      executeTransition := executeTransitionB rec' }

/-- `FSMOrchestrator.enterState` at a fuel level. -/
def enterState (reg : Registry) (fuel : Nat) (stateName : String) : SessM Unit :=
  (mkOrch reg fuel).enterState stateName

/-- `FSMOrchestrator.processToolResult` at a fuel level. -/
def processToolResult (reg : Registry) (fuel : Nat) (toolCallId : String)
    (result : Value) : SessM Unit :=
  (mkOrch reg fuel).processToolResult toolCallId result

/-- `FSMOrchestrator.executeTransition` at a fuel level. -/
def executeTransition (reg : Registry) (fuel : Nat) (t : TransitionConfig)
    (session : SessionState) (flow : FlowConfig) (intent? : Option NLUIntent)
    (toolResult? : Option Value) : SessM Unit :=
  (mkOrch reg fuel).executeTransition t session flow intent? toolResult?

/-- `FSMOrchestrator.executeTool` at a fuel level. -/
def executeTool (reg : Registry) (fuel : Nat) (toolName : String)
    (argsTemplate : Value) (session : SessionState) (flow : FlowConfig) :
    SessM Unit :=
  (mkOrch reg fuel).executeTool toolName argsTemplate session flow

/-- `SafeToolWorker`-wrapped worker execution at a fuel level. -/
def execWorker (reg : Registry) (fuel : Nat) (w : Worker) (sid tid : String)
    (args : Value) : SessM Value :=
  (mkOrch reg fuel).execWorker w sid tid args

/-- `FSMOrchestrator.processIntent` (flow.ts lines 109-137): the first
transition of the current state matching the intent is executed; with no
match, `intent.unhandled` is emitted (the delayed soft re-prompt runs on a
timer outside this model).  A state with no transition list does nothing. -/
def processIntent (reg : Registry) (fuel : Nat) (intent : NLUIntent)
    (session : SessionState) (flow : FlowConfig) : SessM Unit :=
  match lookupKey flow.states session.currentState with
  | none => pure ()
  | some currentState =>
    match currentState.transitions with
    | none => pure ()
    | some transitions =>
      match transitions.find? (fun t => matchesIntentTransition t intent session) with
      | some t => executeTransition reg fuel t session flow (some intent) none
      | none =>
          emitEvent (.intentUnhandled intent.name intent.confidence session.currentState)

/-! ### Store-level public operations (lock handling) -/

/-- Run a session-level computation on the store without touching the lock
(the way `processToolResult` and `enterState` run in flow.ts). -/
def liftData (m : SessM α) : Store → Except String α × Store := fun st =>
  match m st.data with
  | (r, d') => (r, { st with data := d' })

/-- `SessionManager.withLock`: fail fast (`Failed to acquire lock`) when the
lock is already held; otherwise hold the lock for the body and release it in
the `finally`. -/
def withLock (body : SessM α) : Store → Except String α × Store := fun st =>
  if st.locked then (.error "Failed to acquire lock", st)
  else
    match body st.data with
    | (r, d') => (r, { locked := false, data := d' })

/-- `FSMOrchestrator.processUserInput` (flow.ts lines 37-59): the only
public operation wrapped in `withLock`.  Classify, persist the intent, then
process it against the current state. -/
def processUserInput (reg : Registry) (cl : Classifier) (fuel : Nat)
    (userText : String) : Store → Except String Unit × Store :=
  withLock (do
    let s? ← getSessionState
    let f? ← getFlowConfig
    match s?, f? with
    | some session, some flow => do
      let intent := cl userText flow.intents session.context
      storeIntent intent
      processIntent reg fuel intent session flow
    | _, _ => throwErr "Session not found")

/-- `FSMOrchestrator.processToolResult` as invoked from outside: it does not
acquire the session lock. -/
def processToolResultOp (reg : Registry) (fuel : Nat) (toolCallId : String)
    (result : Value) : Store → Except String Unit × Store :=
  liftData (processToolResult reg fuel toolCallId result)

/-- `FSMOrchestrator.enterState` as invoked from outside: it does not
acquire the session lock. -/
def enterStateOp (reg : Registry) (fuel : Nat) (stateName : String) :
    Store → Except String Unit × Store :=
  liftData (enterState reg fuel stateName)

end EventBusFSM

namespace EventBusFSM

/-! ### MockClassifier (mock-classifier.ts): the deterministic fallback
classifier.  `Math.random()` is modelled by an explicit `rand ∈ [0,1)`
parameter; `extractSlot` (whose date/time branches depend on the current
date) is abstracted as an oracle parameter — no claim settled here depends
on extracted slots. -/

/-- Slot extraction oracle: `extractSlot(text, slotType)`. -/
abbrev SlotOracle := String → String → Option Value

/-- Word character for the `\b` regex boundary. -/
def isWordChar (c : Char) : Bool :=
  isDigitChar c ∨ ('a' ≤ c ∧ c ≤ 'z') ∨ ('A' ≤ c ∧ c ≤ 'Z') ∨ c = '_'

/-- Uppercase ASCII letter. -/
def isUpperAZ (c : Char) : Bool := 'A' ≤ c ∧ c ≤ 'Z'

/-- Lowercase ASCII letter. -/
def isLowerAZ (c : Char) : Bool := 'a' ≤ c ∧ c ≤ 'z'

/-- Try a pattern at every position, requiring a `\b` word boundary before
the position (`prev` is the previous character). -/
def boundaryScan (p : List Char → Bool) : Option Char → List Char → Bool
  | _, [] => false
  | prev, c :: cs =>
    ((match prev with | none => true | some x => !(isWordChar x)) && p (c :: cs))
      || boundaryScan p (some c) cs

/-- Match `[A-Z][a-z]+\s+[A-Z][a-z]+\b` at the head of the input. -/
def nameAt : List Char → Bool
  | [] => false
  | u1 :: rest =>
    if isUpperAZ u1 then
      let low1 := rest.takeWhile isLowerAZ
      let r1 := rest.drop low1.length
      if low1.isEmpty then false
      else
        let ws := r1.takeWhile isWsChar
        let r2 := r1.drop ws.length
        if ws.isEmpty then false
        else
          match r2 with
          | [] => false
          | u2 :: rest2 =>
            if isUpperAZ u2 then
              let low2 := rest2.takeWhile isLowerAZ
              let r3 := rest2.drop low2.length
              (!low2.isEmpty) &&
                (match r3.head? with
                 | none => true
                 | some c => !(isWordChar c))
            else false
    else false

/-- Take exactly `n` digits. -/
def digitsN : Nat → List Char → Option (List Char)
  | 0, l => some l
  | _ + 1, [] => none
  | n + 1, c :: cs => if isDigitChar c then digitsN n cs else none

/-- Consume an optional `[-.]` separator. -/
def dropSep : List Char → List Char
  | [] => []
  | c :: cs => if c = '-' ∨ c = '.' then cs else c :: cs

/-- Match `\d{3}[-.]?\d{3}[-.]?\d{4}\b` at the head of the input. -/
def phoneAt (l : List Char) : Bool :=
  match digitsN 3 l with
  | none => false
  | some r1 =>
    match digitsN 3 (dropSep r1) with
    | none => false
    | some r2 =>
      match digitsN 4 (dropSep r2) with
      | none => false
      | some r3 =>
        match r3.head? with
        | none => true
        | some c => !(isWordChar c)

/-- The `hasName` test of `getIntentSpecificScore`:
`/\b[A-Z][a-z]+\s+[A-Z][a-z]+\b/.test(text)`. -/
def hasNamePattern (l : List Char) : Bool := boundaryScan nameAt none l

/-- The `hasPhone` test of `getIntentSpecificScore`:
`/\b\d{3}[-.]?\d{3}[-.]?\d{4}\b/.test(text)`. -/
def hasPhonePattern (l : List Char) : Bool := boundaryScan phoneAt none l

/-- Fuel-bounded body of `splitWs`. -/
def splitWsF : Nat → List Char → List (List Char)
  | 0, l => [l]
  | fuel + 1, l =>
    let piece := l.takeWhile (fun c => !(isWsChar c))
    let rest := l.dropWhile (fun c => !(isWsChar c))
    match rest with
    | [] => [piece]
    | _ => piece :: splitWsF fuel (dropWs rest)

/-- JS `split(/\s+/)`: split on maximal whitespace runs (leading/trailing
whitespace contributes an empty first/last piece, as in JS). -/
def splitWs (l : List Char) : List (List Char) := splitWsF (l.length + 1) l

/-- Floor of a non-negative number to a natural (`Math.floor`). -/
def JNum.floorNat (q : JNum) : Nat := (q.n / (q.d : Int)).toNat

/-- `Math.min` on two numbers. -/
def minJ (a b : JNum) : JNum := if a.le b then a else b

/-- `MockClassifier.getIntentSpecificScore` (text is the lowercased clean
text): keyword and pattern bonuses. -/
def intentSpecificScore (text : List Char) (defn : IntentDefinition) : JNum :=
  let t1 := dropWs text
  let ds := t1.takeWhile isDigitChar
  let standaloneNumber := (!ds.isEmpty) && (t1.drop ds.length).all isWsChar
  let s1 : JNum :=
    if standaloneNumber ∧ (lookupKey defn.slots "partySize").isSome
    then ⟨4, 5⟩ else 0
  let s2 : JNum :=
    if hasSub "book".data text ∨ hasSub "reservation".data text ∨
       hasSub "table".data text ∨ hasSub "reserve".data text
    then ⟨2, 5⟩ else 0
  let s3 : JNum :=
    if hasSub ['?'] text ∨ startsWithList "what".data text ∨
       startsWithList "how".data text ∨ startsWithList "do you".data text
    then ⟨3, 10⟩ else 0
  let s4 : JNum :=
    if hasSub "party".data text ∨ hasSub "people".data text ∨
       hasSub "person".data text ∨ hasSub "we are".data text
    then ⟨3, 10⟩ else 0
  let s5 : JNum :=
    if hasSub "name".data text ∨ hasSub "phone".data text ∨
       hasSub "contact".data text ∨ hasSub "call me".data text ∨
       hasNamePattern text ∨ hasPhonePattern text
    then ⟨3, 10⟩ else 0
  let s6 : JNum :=
    if hasSub "tomorrow".data text ∨ hasSub "today".data text ∨
       hasSub "pm".data text ∨ hasSub "am".data text ∨
       hasSub [':'] text ∨ hasSub "time".data text ∨
       hasSub "monday".data text ∨ hasSub "tuesday".data text ∨
       hasSub "wednesday".data text ∨ hasSub "thursday".data text ∨
       hasSub "friday".data text ∨ hasSub "saturday".data text ∨
       hasSub "sunday".data text
    then ⟨3, 10⟩ else 0
  (((((s1.add s2).add s3).add s4).add s5).add s6)

/-- `MockClassifier.matchIntent` (mock-classifier.ts lines 55-85): per
example, the fraction of its words of length > 2 contained in the lowercased
text, times 0.5; plus 0.3 per extracted slot; plus the intent-specific
bonuses; capped at 0.95.  Returns (confidence, slots). -/
def matchIntent (extract : SlotOracle) (text : String)
    (defn : IntentDefinition) : JNum × Env :=
  let lowerText := lowerList text.data
  let exScore := defn.examples.foldl (fun (acc : JNum) ex =>
      let ws := splitWs (lowerList ex.data)
      let matched := ws.filter (fun w => hasSub w lowerText ∧ w.length > 2)
      acc.add (((JNum.ofNat matched.length).div (JNum.ofNat ws.length)).mul ⟨1, 2⟩))
    0
  let slotsAndScore := defn.slots.foldl (fun (acc : Env × JNum) p =>
      match extract text p.2 with
      | some v => (acc.1 ++ [(p.1, v)], acc.2.add ⟨3, 10⟩)
      | none => acc) ([], 0)
  let score := (exScore.add slotsAndScore.2).add (intentSpecificScore lowerText defn)
  (minJ score ⟨19, 20⟩, slotsAndScore.1)

/-- The `replace(/\s*\(HANG ON\)\s*$/i, '')` step on the raw user text. -/
def stripHangOn (l : List Char) : List Char :=
  let t1 := (dropWs l.reverse).reverse
  if t1.length ≥ 9 ∧ lowerList (t1.drop (t1.length - 9)) = "(hang on)".data then
    (dropWs ((t1.take (t1.length - 9)).reverse)).reverse
  else l

/-- The classifier's `cleanText`: sentinel suffix stripped (case-insensitively)
and the result trimmed. -/
def cleanTextOf (userText : String) : String :=
  String.mk (trimList (stripHangOn userText.data))

/-- `MockClassifier.classifyIntent` (mock-classifier.ts lines 11-50): a user
text whose trimmed form ends in the exact sentinel `(HANG ON)` yields a
random intent (index `Math.floor(rand * n)` into the catalog order) at
confidence 0.3 with no slots; otherwise the catalog is scanned in order and
the FIRST intent whose match confidence exceeds 0.5 is returned; with no
such intent, the first intent of the catalog at confidence 0.2. -/
def classifyIntent (extract : SlotOracle) (rand : JNum) (userText : String)
    (intents : List (String × IntentDefinition)) : NLUIntent :=
  let isIncorrect := endsWithList "(HANG ON)".data (trimList userText.data)
  let cleanText := cleanTextOf userText
  if isIncorrect then
    let names := intents.map (fun p => p.1)
    let idx := (rand.mul (JNum.ofNat names.length)).floorNat
    { name := names.getD idx "", confidence := ⟨3, 10⟩, slots := [] }
  else
    match intents.find? (fun p =>
        JNum.lt ⟨1, 2⟩ (matchIntent extract cleanText p.2).1) with
    | some p =>
        let m := matchIntent extract cleanText p.2
        { name := p.1, confidence := m.1, slots := m.2 }
    | none =>
        { name := ((intents.head?).map (fun p => p.1)).getD ""
          confidence := ⟨1, 5⟩, slots := [] }

/-- The mock classifier as an orchestrator `Classifier` (the context
argument is ignored, as in the source). -/
def mockClassifier (extract : SlotOracle) (rand : JNum) : Classifier :=
  fun userText intents _context => classifyIntent extract rand userText intents

end EventBusFSM

namespace EventBusFSM

/-! ### FlowService.validateFlow (flow-service.ts lines 288-413).

The input `definition` is `any` in the source; it is modelled as a record of
optional parts.  JS truthiness tests on possibly-string fields are mirrored
(the empty string is falsy).  The error strings mirror the source messages
with the single-quote characters elided. -/

/-- A flow definition as submitted to validation. -/
structure FlowDefn where
  meta : Option Value := none
  start : Option String := none
  states : Option (List (String × StateConfig)) := none
  intents : Option (List (String × IntentDefinition)) := none
  tools : Option (List (String × ToolDefinition)) := none

/-- JS truthiness of an optional string field. -/
def optStrTruthy : Option String → Bool
  | some s => s ≠ ""
  | none => false

/-- The result record of `validateFlow`. -/
structure ValidationResult where
  isValid : Bool
  errors : List String
  warnings : List String

/-- One target insertion of the BFS: `if (target && !reachable.has(target))
{ reachable.add(target); queue.push(target) }`.  The accumulator is
(visited set, newly queued). -/
def addTargetBFS (acc : List String × List String) :
    Option String → List String × List String
  | some t =>
      if t ≠ "" ∧ ¬ acc.1.contains t then (acc.1 ++ [t], acc.2 ++ [t]) else acc
  | none => acc

/-- Fold one transition's `to` and branch targets into the BFS accumulator. -/
def transTargetsStep (acc : List String × List String)
    (t : TransitionConfig) : List String × List String :=
  let acc1 := addTargetBFS acc t.toState
  match t.branch with
  | some bs => bs.foldl (fun a b => addTargetBFS a (some b.toState)) acc1
  | none => acc1

/-- Fuel-bounded BFS worklist loop of the unreachable-state check; the fuel
supplied by `reachableList` provably outlasts the queue. -/
def bfsF (states : List (String × StateConfig)) :
    Nat → List String → List String → List String
  | 0, visited, _ => visited
  | _ + 1, visited, [] => visited
  | fuel + 1, visited, cur :: rest =>
    match lookupKey states cur with
    | some st =>
      match st.transitions with
      | some ts =>
        let step := ts.foldl transTargetsStep (visited, [])
        bfsF states fuel step.1 (rest ++ step.2)
      | none => bfsF states fuel visited rest
    | none => bfsF states fuel visited rest

/-- The targets (as written) of one transition list, in traversal order:
each transition contributes its optional `to` and then its branch targets. -/
def flattenTargets (ts : List TransitionConfig) : List (Option String) :=
  ts.flatMap (fun t =>
    t.toState :: (match t.branch with
      | some bs => bs.map (fun b => some b.toState)
      | none => []))

/-- Every transition target named anywhere in the definition — an upper
bound on possible BFS insertions, used to size the fuel. -/
def allTargets (states : List (String × StateConfig)) : List String :=
  states.flatMap (fun p =>
    match p.2.transitions with
    | some ts => (flattenTargets ts).filterMap id
    | none => [])

/-- The set of states the BFS reaches from `start` (insertion order).  The
fuel provably outlasts the worklist: every queue push adds a previously
unvisited name drawn from `allTargets`. -/
def reachableList (states : List (String × StateConfig)) (start : String) :
    List String :=
  bfsF states (1 + (allTargets states).length) [start] [start]

/-- `FlowService.validateFlow`: structural errors, reference errors, then
unreachable-state warnings; the flow is valid iff no error was collected. -/
def validateFlow (dfn : FlowDefn) : ValidationResult :=
  let e1 := if (match dfn.meta with | some v => v.truthy | none => false)
    then [] else ["Flow must have meta information"]
  let e2 := if optStrTruthy dfn.start then [] else ["Flow must have a start state"]
  let e3 :=
    match dfn.states with
    | some sts => if sts.length = 0 then ["Flow must have at least one state"] else []
    | none => ["Flow must have at least one state"]
  let e4 :=
    match dfn.start, dfn.states with
    | some s, some sts =>
        if s ≠ "" ∧ (lookupKey sts s).isNone then
          ["Start state " ++ s ++ " does not exist in states"]
        else []
    | _, _ => []
  let e5 :=
    match dfn.states with
    | some sts =>
      sts.flatMap (fun p =>
        match p.2.transitions with
        | some ts => ts.flatMap (fun t =>
            (match t.toState with
             | some target =>
                 if target ≠ "" ∧ (lookupKey sts target).isNone then
                   ["State " ++ p.1 ++ " has transition to non-existent state " ++ target]
                 else []
             | none => []) ++
            (match t.branch with
             | some bs => bs.flatMap (fun b =>
                 if b.toState ≠ "" ∧ (lookupKey sts b.toState).isNone then
                   ["State " ++ p.1 ++ " has branch transition to non-existent state " ++ b.toState]
                 else [])
             | none => []))
        | none => [])
    | none => []
  let e6 :=
    match dfn.states, dfn.intents with
    | some sts, some ints =>
      sts.flatMap (fun p =>
        match p.2.transitions with
        | some ts => ts.flatMap (fun t =>
            match t.onIntent with
            | none => []
            | some (.one s) =>
                if s = "" then []
                else if (lookupKey ints s).isNone then
                  ["State " ++ p.1 ++ " references non-existent intent " ++ s]
                else []
            | some (.many l) =>
                l.filterMap (fun s =>
                  if (lookupKey ints s).isNone then
                    some ("State " ++ p.1 ++ " references non-existent intent " ++ s)
                  else none))
        | none => [])
    | _, _ => []
  let e7 :=
    match dfn.states, dfn.tools with
    | some sts, some tls =>
      sts.flatMap (fun p =>
        match p.2.onEnter with
        | some acts => acts.filterMap (fun a =>
            match a.tool with
            | some tn =>
                if tn ≠ "" ∧ (lookupKey tls tn).isNone then
                  some ("State " ++ p.1 ++ " references non-existent tool " ++ tn)
                else none
            | none => none)
        | none => [])
    | _, _ => []
  let errors := e1 ++ e2 ++ e3 ++ e4 ++ e5 ++ e6 ++ e7
  let warnings :=
    match dfn.states, dfn.start with
    | some sts, some s =>
        if s ≠ "" then
          sts.filterMap (fun p =>
            if ¬ (reachableList sts s).contains p.1 then
              some ("State " ++ p.1 ++ " is unreachable from the start state")
            else none)
        else []
    | _, _ => []
  { isValid := errors.isEmpty, errors := errors, warnings := warnings }

end EventBusFSM

namespace EventBusFSM

/-! ### Lemmas about the template scanner -/

theorem matchPre_append (pat : List Char) :
    ∀ rest, matchPre pat (pat ++ rest) = some rest := by
  induction pat with
  | nil => intro rest; simp [matchPre]
  | cons p ps ih => intro rest; simp [matchPre, ih]

theorem scanPath_cons_ne (c : Char) (hc : c ≠ '}') (acc l : List Char) :
    scanPath acc (c :: l) = scanPath (c :: acc) l := by
  cases l with
  | nil => simp [scanPath, hc]
  | cons c' rest =>
      by_cases hc' : c' = '}'
      · subst hc'
        simp [scanPath, hc]
      · simp [scanPath, hc, hc']

theorem scanPath_length (l : List Char) :
    ∀ acc p rest, scanPath acc l = some (p, rest) → rest.length < l.length := by
  induction l with
  | nil => intro acc p rest h; simp [scanPath] at h
  | cons c cs ih =>
      intro acc p rest h
      by_cases hc : c = '}'
      · subst hc
        match cs, h with
        | [], h => simp [scanPath] at h
        | '}' :: rest', h =>
            by_cases hacc : acc.isEmpty
            · simp [scanPath, hacc] at h
            · simp [scanPath, hacc] at h
              simp [← h.2, List.length]
              omega
        | c' :: rest', h =>
            by_cases hc' : c' = '}'
            · subst hc'
              by_cases hacc : acc.isEmpty
              · simp [scanPath, hacc] at h
              · simp [scanPath, hacc] at h
                simp [← h.2, List.length]
                omega
            · simp [scanPath, hc'] at h
      · rw [scanPath_cons_ne c hc] at h
        have := ih (c :: acc) p rest h
        simp [List.length]
        omega

theorem scanPath_complete (p : List Char) :
    ∀ acc post, p ≠ [] → (∀ c ∈ p, c ≠ '}') →
      scanPath acc (p ++ '}' :: '}' :: post)
        = some (String.mk (acc.reverse ++ p), post) := by
  induction p with
  | nil => intro acc post h; exact absurd rfl h
  | cons c p' ih =>
      intro acc post _ hall
      have hc : c ≠ '}' := hall c (by simp)
      rw [List.cons_append, scanPath_cons_ne c hc]
      cases hp' : p' with
      | nil =>
          subst hp'
          simp [scanPath]
      | cons d p'' =>
          rw [← hp']
          have := ih (c :: acc) post (by simp [hp'])
            (fun x hx => hall x (by simp [hx]))
          rw [this]
          simp

theorem replacePassF_ext (tag : List Char) (env : Value) :
    ∀ (N : Nat) (l : List Char) (fuel fuel' : Nat), l.length ≤ N →
      l.length < fuel → l.length < fuel' →
      replacePassF tag env fuel l = replacePassF tag env fuel' l := by
  intro N
  induction N with
  | zero =>
      intro l fuel fuel' hN hf hf'
      have hl : l = [] := by
        cases l with
        | nil => rfl
        | cons c cs => simp [List.length] at hN
      subst hl
      obtain ⟨f, rfl⟩ : ∃ f, fuel = f + 1 := ⟨fuel - 1, by omega⟩
      obtain ⟨f', rfl⟩ : ∃ g, fuel' = g + 1 := ⟨fuel' - 1, by omega⟩
      simp [replacePassF]
  | succ N ih =>
      intro l fuel fuel' hN hf hf'
      obtain ⟨f, rfl⟩ : ∃ f, fuel = f + 1 := ⟨fuel - 1, by omega⟩
      obtain ⟨f', rfl⟩ : ∃ g, fuel' = g + 1 := ⟨fuel' - 1, by omega⟩
      cases l with
      | nil => simp [replacePassF]
      | cons c cs =>
        have hcs : cs.length ≤ N := by simp [List.length] at hN; omega
        simp only [replacePassF]
        cases hm : matchPre (tagOpen tag) (c :: cs) with
        | none =>
            rw [ih cs f f' hcs (by simp [List.length] at hf; omega)
              (by simp [List.length] at hf'; omega)]
        | some afterTag =>
          cases hs : scanPath [] afterTag with
          | none =>
              simp only [hs]
              rw [ih cs f f' hcs (by simp [List.length] at hf; omega)
                (by simp [List.length] at hf'; omega)]
          | some pr =>
              obtain ⟨path, rest⟩ := pr
              have h1 := matchPre_length (tagOpen tag) (c :: cs) afterTag hm
              have h2 := scanPath_length afterTag [] path rest hs
              have hlt : rest.length < cs.length + 1 := by
                simp only [tagOpen, List.length_cons, List.length_append,
                  List.length] at h1
                omega
              have hrN : rest.length ≤ N := by omega
              simp only [hs]
              rw [ih rest f f' hrN
                (by simp [List.length] at hf; omega)
                (by simp [List.length] at hf'; omega)]

theorem replacePass_eq_f (tag : List Char) (env : Value) (l : List Char)
    (fuel : Nat) (h : l.length < fuel) :
    replacePassF tag env fuel l = replacePass tag env l :=
  replacePassF_ext tag env l.length l fuel (l.length + 1) le_rfl h (by omega)

theorem matchPre_head_ne (tag : List Char) (c : Char) (cs : List Char)
    (hc : c ≠ '{') : matchPre (tagOpen tag) (c :: cs) = none := by
  have : ('{' : Char) ≠ c := fun h => hc h.symm
  simp [tagOpen, matchPre, this]

theorem replacePassF_step (tag : List Char) (env : Value) (c : Char)
    (cs : List Char) (fuel : Nat) :
    replacePassF tag env (fuel + 1) (c :: cs)
      = match matchPre (tagOpen tag) (c :: cs) with
        | some afterTag =>
          match scanPath [] afterTag with
          | some (path, rest) =>
              (lookupStr env path).data ++ replacePassF tag env fuel rest
          | none => c :: replacePassF tag env fuel cs
        | none => c :: replacePassF tag env fuel cs := rfl

theorem replacePass_cons_nomatch (tag : List Char) (env : Value) (c : Char)
    (cs : List Char) (h : matchPre (tagOpen tag) (c :: cs) = none) :
    replacePass tag env (c :: cs) = c :: replacePass tag env cs := by
  show replacePassF tag env ((cs.length + 1) + 1) (c :: cs) = _
  rw [replacePassF_step]
  simp only [h]
  rfl

theorem replacePass_head_match (tag : List Char) (env : Value)
    (p post : List Char) (hp : p ≠ []) (hall : ∀ c ∈ p, c ≠ '}') :
    replacePass tag env (tagOpen tag ++ p ++ '}' :: '}' :: post)
      = (lookupStr env (String.mk p)).data ++ replacePass tag env post := by
  have hne : tagOpen tag ++ p ++ '}' :: '}' :: post
      = '{' :: (('{' :: (tag ++ ['.'])) ++ (p ++ '}' :: '}' :: post)) := by
    simp [tagOpen]
  have hm : matchPre (tagOpen tag)
      ('{' :: (('{' :: (tag ++ ['.'])) ++ (p ++ '}' :: '}' :: post)))
        = some (p ++ '}' :: '}' :: post) := by
    have := matchPre_append (tagOpen tag) (p ++ '}' :: '}' :: post)
    simpa [tagOpen] using this
  rw [hne]
  show replacePassF tag env
    ((('{' :: (tag ++ ['.'])) ++ (p ++ '}' :: '}' :: post)).length + 1 + 1) _ = _
  rw [replacePassF_step]
  simp only [hm, scanPath_complete p [] post hp hall, List.reverse_nil,
    List.nil_append]
  rw [replacePass_eq_f tag env post
    ((('{' :: (tag ++ ['.'])) ++ (p ++ '}' :: '}' :: post)).length + 1)
    (by simp [List.length_append, List.length]; omega)]

theorem replacePass_occurrence (tag : List Char) (env : Value)
    (pre p post : List Char) (hpre : ∀ c ∈ pre, c ≠ '{') (hp : p ≠ [])
    (hall : ∀ c ∈ p, c ≠ '}') :
    replacePass tag env (pre ++ tagOpen tag ++ p ++ '}' :: '}' :: post)
      = pre ++ (lookupStr env (String.mk p)).data ++ replacePass tag env post := by
  induction pre with
  | nil =>
      simpa using replacePass_head_match tag env p post hp hall
  | cons c cs ih =>
      have hc : c ≠ '{' := hpre c (by simp)
      have := replacePass_cons_nomatch tag env c
        (cs ++ tagOpen tag ++ p ++ '}' :: '}' :: post)
        (matchPre_head_ne tag c _ hc)
      simp only [List.cons_append] at this ⊢
      rw [this, ih (fun x hx => hpre x (by simp [hx]))]

end EventBusFSM

namespace EventBusFSM

/-- C6: the expression evaluator maps the literal string `else` to true for
every context (and every tool environment); and the expression
`{{ctx.x}} > 8` evaluates to true when the context binds x to 10 and to
false when it binds x to 4. -/
theorem c6_evaluator_else_and_comparison :
    (∀ (ctx : Env) (tool : Option Value), evaluate "else" ctx tool = true) ∧
    evaluate "\x7b\x7bctx.x\x7d\x7d > 8" [("x", .vnum 10)] none = true ∧
    evaluate "\x7b\x7bctx.x\x7d\x7d > 8" [("x", .vnum 4)] none = false :=
  ⟨fun _ _ => rfl, rfl, rfl⟩

/-- C7 counterexample: with the slot environment absent, a `{{slot.path}}`
occurrence whose lookup finds no value is NOT replaced by the empty string —
it is left verbatim in the output (the claim asserts the output would be the
empty string). -/
theorem c7_counterexample_absent_env :
    resolve (.vstr "\x7b\x7bslot.a\x7d\x7d") [] none none
      = .vstr "\x7b\x7bslot.a\x7d\x7d" ∧
    Value.vstr "\x7b\x7bslot.a\x7d\x7d" ≠ Value.vstr "" := by
  refine ⟨rfl, fun h => ?_⟩
  injection h with h'
  exact absurd h' (by decide)

/-- C7 as amended: (1) within a pass for a present environment, a
`{{tag.path}}` occurrence whose dotted lookup finds no value (or null) is
replaced by the empty string (stated for an occurrence preceded by
brace-free text and followed by anything); (2) when the slot and tool
environments are absent their passes do not run at all, so only the `ctx`
pass applies and absent-environment placeholders stay verbatim; (3) a
present-but-empty slot environment does replace a missing lookup by the
empty string. -/
theorem c7_amended_missing_lookups :
    (∀ (tag : List Char) (env : Value) (pre p post : List Char),
      (∀ c ∈ pre, c ≠ '{') → p ≠ [] → (∀ c ∈ p, c ≠ '}') →
      (getNested env (String.mk p) = none ∨
        getNested env (String.mk p) = some .vnull) →
      replacePass tag env (pre ++ tagOpen tag ++ p ++ '}' :: '}' :: post)
        = pre ++ replacePass tag env post) ∧
    (∀ (s : String) (ctx : Env),
      resolveString s ctx none none
        = String.mk (replacePass ['c', 't', 'x'] (.vobj ctx) s.data)) ∧
    resolve (.vstr "\x7b\x7bslot.a\x7d\x7d") [] (some []) none = .vstr "" := by
  refine ⟨?_, fun s ctx => rfl, rfl⟩
  intro tag env pre p post hpre hp hall hmiss
  have hlook : lookupStr env (String.mk p) = "" := by
    cases hmiss with
    | inl h => simp [lookupStr, h]
    | inr h => simp [lookupStr, h]
  rw [replacePass_occurrence tag env pre p post hpre hp hall, hlook]
  simp

/-- C7 amended witness: a concrete instantiation — the single occurrence
`a{{ctx.x}}b` with an empty context resolves to `ab`. -/
theorem c7_amended_missing_lookups_witness :
    replacePass ['c', 't', 'x'] (.vobj [])
        ("a".data ++ tagOpen ['c', 't', 'x'] ++ "x".data ++ '}' :: '}' :: "b".data)
      = "a".data ++ replacePass ['c', 't', 'x'] (.vobj []) "b".data :=
  c7_amended_missing_lookups.1 ['c', 't', 'x'] (.vobj []) "a".data "x".data "b".data
    (by decide) (by decide) (by decide) (Or.inl rfl)

end EventBusFSM

namespace EventBusFSM

/-! ### C3: updateContext merge semantics -/

/-- Store fixture for the updateContext claim: empty context, as a fresh
session has (the reservation flow's `CollectContactInformation` state
assigns the dotted keys used here). -/
def c3Data : Data :=
  ⟨some ⟨"s1", "CollectContactInformation", [], none, none, none⟩, none, [], 0⟩

/-- The context produced by the code: the dotted path stays one flat key. -/
def c3FlatCtx : Env := [("contact.name", .vstr "John Doe")]

/-- C3: `updateContext` does NOT deep-merge.  Applying the patch
`{"contact.name": "John Doe"}` (the resolved `assign` of the repository's
own reservation flow) to an empty context stores the dotted path as a flat
top-level key and emits `state.updated` with that flat context; the nested
object `{contact: {name: ...}}` is never created, so the flow's own
`{{ctx.contact}}` and `{{ctx.contact.name}}` templates subsequently resolve
to the empty string. -/
theorem c3_updateContext_is_shallow :
    (updateContext [("contact.name", .vstr "John Doe")] c3Data).2.session
      = some ⟨"s1", "CollectContactInformation", c3FlatCtx, none, none, none⟩ ∧
    (updateContext [("contact.name", .vstr "John Doe")] c3Data).2.events
      = [.stateUpdated c3FlatCtx] ∧
    getNested (.vobj c3FlatCtx) "contact" = none ∧
    getNested (.vobj c3FlatCtx) "contact.name" = none ∧
    resolve (.vstr "\x7b\x7bctx.contact\x7d\x7d") c3FlatCtx none none = .vstr "" ∧
    resolve (.vstr "\x7b\x7bctx.contact.name\x7d\x7d") c3FlatCtx none none = .vstr "" :=
  ⟨rfl, rfl, rfl, rfl, rfl, rfl⟩

end EventBusFSM

namespace EventBusFSM

/-! ### C2: tool.call / tool.result correlation through the mock worker -/

/-- A minimal flow exercising the `executeTool` → `MockToolWorker` path:
state S calls tool T on entry and transitions to S2 on T's result. -/
def c2Flow : FlowConfig := {
  meta := ⟨"C2", none, none⟩
  start := "S"
  intents := []
  tools := [("T", ⟨.vobj [], .vobj [], none⟩)]
  states := [
    ("S", { onEnter := some [{ tool := some "T", args := some (.vobj []) }],
            transitions := some [{ onToolResult := some "T", toState := some "S2" }] }),
    ("S2", { onEnter := some [{ say := some (.vstr "done") }],
             transitions := some [] })] }

/-- Fresh store bound to `c2Flow`. -/
def c2Data : Data := ⟨some ⟨"sess", "S0", [], none, none, none⟩, some c2Flow, [], 0⟩

/-- The mock worker's result for empty `mockResults`. -/
def c2Res : Value := .vobj [("success", .vbool true)]

/-- Event-counting helpers for the C2 trace. -/
def isToolCallWith (id : String) : Event → Bool
  | .toolCall i _ _ => i = id
  | _ => false

/-- Tool-result counter. -/
def isToolResultWith (id : String) : Event → Bool
  | .toolResult i _ => i = id
  | _ => false

/-- C2 fails on the code: entering state S emits one `tool.call` with id
uuid-0 but TWO `tool.result` events with that same id — one from
`MockToolWorker.execute` reporting back through `processToolResult`, and a
second from `executeTool` feeding the worker's returned result into
`processToolResult` again.  The full trace is listed to make both emissions
visible. -/
theorem c2_tool_result_emitted_twice :
    (enterState [("T", .mock [])] 20 "S" c2Data).2.events
      = [.fsmTransition "S0" "S",
         .toolCall "uuid-0" "T" (.vobj []),
         .toolResult "uuid-0" c2Res,
         .fsmTransition "S" "S2",
         .say (.vstr "done"),
         .toolResult "uuid-0" c2Res] ∧
    ((enterState [("T", .mock [])] 20 "S" c2Data).2.events.filter
        (isToolCallWith "uuid-0")).length = 1 ∧
    ((enterState [("T", .mock [])] 20 "S" c2Data).2.events.filter
        (isToolResultWith "uuid-0")).length = 2 :=
  ⟨rfl, rfl, rfl⟩

end EventBusFSM

namespace EventBusFSM

/-! ### C4: branch selection vs the `to` field -/

/-- Simp lemmas exposing the monad operations of `SessM`. -/
@[simp] theorem sessM_bind_def {α β : Type} (m : SessM α) (f : α → SessM β) :
    (m >>= f) = SessM.bind m f := rfl

/-- Pure of `SessM` as the underlying function. -/
@[simp] theorem sessM_pure_def {α : Type} (a : α) :
    (Pure.pure a : SessM α) = SessM.pure a := rfl

/-- Applied form of `SessM.bind`. -/
@[simp] theorem sessM_bind_apply {α β : Type} (m : SessM α) (f : α → SessM β)
    (d : Data) :
    SessM.bind m f d
      = match m d with
        | (.ok a, d') => f a d'
        | (.error e, d') => (.error e, d') := rfl

/-- Applied form of `SessM.pure`. -/
@[simp] theorem sessM_pure_apply {α : Type} (a : α) (d : Data) :
    SessM.pure a d = (.ok a, d) := rfl

/-- Applied form of `throwErr`. -/
@[simp] theorem throwErr_apply {α : Type} (msg : String) (d : Data) :
    (throwErr msg : SessM α) d = (.error msg, d) := rfl

/-- Applied form of `tryCatch`. -/
@[simp] theorem tryCatch_apply {α : Type} (m : SessM α) (h : String → SessM α)
    (d : Data) :
    tryCatch m h d
      = match m d with
        | (.ok a, d') => (.ok a, d')
        | (.error e, d') => h e d' := rfl

/-- Applied form of `getSessionState`. -/
@[simp] theorem getSessionState_apply (d : Data) :
    getSessionState d = (.ok d.session, d) := rfl

/-- Applied form of `getFlowConfig`. -/
@[simp] theorem getFlowConfig_apply (d : Data) :
    getFlowConfig d = (.ok d.flow, d) := rfl

/-- Applied form of `setSessionState`. -/
@[simp] theorem setSessionState_apply (s : SessionState) (d : Data) :
    setSessionState s d = (.ok (), { d with session := some s }) := rfl

/-- Applied form of `emitEvent`. -/
@[simp] theorem emitEvent_apply (e : Event) (d : Data) :
    emitEvent e d = (.ok (), { d with events := d.events ++ [e] }) := rfl

/-- Applied form of `freshId`. -/
@[simp] theorem freshId_apply (d : Data) :
    freshId d = (.ok ("uuid-" ++ toString d.nextId),
      { d with nextId := d.nextId + 1 }) := rfl

/-- Flow for the C4 counterexample: plain states B and C. -/
def c4Flow : FlowConfig := {
  meta := ⟨"C4", none, none⟩
  start := "B"
  intents := []
  tools := []
  states := [("B", {}), ("C", {})] }

/-- A transition carrying BOTH a branch list and a `to` field. -/
def c4Trans : TransitionConfig :=
  { branch := some [⟨"\x7b\x7bctx.x\x7d\x7d > 8", "B"⟩], toState := some "C" }

/-- Session with x = 4, so the single branch guard is false. -/
def c4Sess : SessionState := ⟨"s4", "S0", [("x", .vnum 4)], none, none, none⟩

/-- Its store. -/
def c4Data : Data := ⟨some c4Sess, some c4Flow, [], 0⟩

/-- C4 fails on the code: executing a transition whose branch list is
present (guard `{{ctx.x}} > 8` false at x = 4) but which also carries
`to: C` ENTERS state C — the `to` field is used as a fallback even though a
branch list is present, contradicting the claim that `to` determines the
target only when `branch` is absent. -/
theorem c4_counterexample_to_fallback :
    (executeTransition [] 10 c4Trans c4Sess c4Flow none none c4Data).2.session
      = some ⟨"s4", "C", [("x", .vnum 4)], none, none, none⟩ ∧
    (executeTransition [] 10 c4Trans c4Sess c4Flow none none c4Data).2.events
      = [.fsmTransition "S0" "C"] :=
  ⟨rfl, rfl⟩

/-- The post-assign context of a transition executed against snapshot `s0`. -/
def postAssignCtx (t : TransitionConfig) (s0 : SessionState)
    (intent? : Option NLUIntent) (toolResult? : Option Value) : Env :=
  match t.assign with
  | some entries =>
      mergeSpread s0.context (entries.map (fun p =>
        (p.1, resolve p.2 s0.context (intent?.map (fun i => i.slots)) toolResult?)))
  | none => s0.context

/-- The events the assign step appends. -/
def assignEvents (t : TransitionConfig) (s0 : SessionState)
    (intent? : Option NLUIntent) (toolResult? : Option Value) : List Event :=
  match t.assign with
  | some _ => [.stateUpdated (postAssignCtx t s0 intent? toolResult?)]
  | none => []

/-- The session after the assign step. -/
def postAssignSess (t : TransitionConfig) (s0 : SessionState)
    (intent? : Option NLUIntent) (toolResult? : Option Value) : SessionState :=
  { s0 with context := postAssignCtx t s0 intent? toolResult? }

/-- C4 amended: for a transition carrying a branch list, the entered state
is that of the FIRST branch whose `when` guard evaluates true against the
post-assign context (with the tool environment bound); when no branch guard
is true the transition falls back to `to` when present, and does nothing
further when `to` is also absent.  (`when: "else"` is always true by
`c6_evaluator_else_and_comparison`.)  Stated for target states without
onEnter actions so the entered state is also the final state. -/
theorem c4_amended_branch_first_match (reg : Registry) (fuel : Nat)
    (t : TransitionConfig) (s0 : SessionState) (flow : FlowConfig) (d : Data)
    (bs : List BranchConfig) (intent? : Option NLUIntent)
    (toolResult? : Option Value)
    (hb : t.branch = some bs) (hs : d.session = some s0)
    (hf : d.flow = some flow) :
    (∀ b, bs.find? (fun b =>
        evaluate b.whenExpr (postAssignCtx t s0 intent? toolResult?) toolResult?)
          = some b →
      ∀ cfg, lookupKey flow.states b.toState = some cfg → cfg.onEnter = none →
      executeTransition reg (fuel + 2) t s0 flow intent? toolResult? d
        = (.ok (), { d with
            session := some { postAssignSess t s0 intent? toolResult? with
              currentState := b.toState }
            events := d.events ++ assignEvents t s0 intent? toolResult?
              ++ [.fsmTransition s0.currentState b.toState] })) ∧
    (bs.find? (fun b =>
        evaluate b.whenExpr (postAssignCtx t s0 intent? toolResult?) toolResult?)
          = none →
      ∀ tgt, t.toState = some tgt →
      ∀ cfg, lookupKey flow.states tgt = some cfg → cfg.onEnter = none →
      executeTransition reg (fuel + 2) t s0 flow intent? toolResult? d
        = (.ok (), { d with
            session := some { postAssignSess t s0 intent? toolResult? with
              currentState := tgt }
            events := d.events ++ assignEvents t s0 intent? toolResult?
              ++ [.fsmTransition s0.currentState tgt] })) ∧
    (bs.find? (fun b =>
        evaluate b.whenExpr (postAssignCtx t s0 intent? toolResult?) toolResult?)
          = none →
      t.toState = none →
      executeTransition reg (fuel + 2) t s0 flow intent? toolResult? d
        = (.ok (), { d with
            session := some (postAssignSess t s0 intent? toolResult?)
            events := d.events ++ assignEvents t s0 intent? toolResult? })) := by
  obtain ⟨ds, df, de, dn⟩ := d
  simp only [Data.session] at hs
  simp only [Data.flow] at hf
  subst hs
  subst hf
  refine ⟨?_, ?_, ?_⟩
  · intro b hfind cfg hlook honEnter
    cases ha : t.assign with
    | none =>
        simp only [postAssignCtx, ha] at hfind
        simp [executeTransition, mkOrch, executeTransitionB, enterStateB,
          postAssignCtx, postAssignSess, assignEvents, ha, hb, hfind,
          hlook, honEnter, SessM.bind, SessM.pure, transitionToState,
          updateContext]
    | some entries =>
        simp only [postAssignCtx, ha] at hfind
        simp [executeTransition, mkOrch, executeTransitionB, enterStateB,
          postAssignCtx, postAssignSess, assignEvents, ha, hb, hfind,
          hlook, honEnter, SessM.bind, SessM.pure, transitionToState,
          updateContext]
  · intro hfind tgt htgt cfg hlook honEnter
    cases ha : t.assign with
    | none =>
        simp only [postAssignCtx, ha] at hfind
        simp only [executeTransition, mkOrch, executeTransitionB, enterStateB,
          postAssignCtx, postAssignSess, assignEvents, ha, hb, htgt,
          SessM.bind, SessM.pure, transitionToState, updateContext,
          sessM_bind_apply, sessM_pure_apply, getSessionState_apply,
          getFlowConfig_apply, setSessionState_apply, emitEvent_apply,
          throwErr_apply, hfind]
        simp [hfind, hlook, honEnter, mkOrch, enterStateB, SessM.bind, SessM.pure]
    | some entries =>
        simp only [postAssignCtx, ha] at hfind
        simp only [executeTransition, mkOrch, executeTransitionB, enterStateB,
          postAssignCtx, postAssignSess, assignEvents, ha, hb, htgt,
          SessM.bind, SessM.pure, transitionToState, updateContext,
          sessM_bind_apply, sessM_pure_apply, getSessionState_apply,
          getFlowConfig_apply, setSessionState_apply, emitEvent_apply,
          throwErr_apply, hfind]
        simp [hfind, hlook, honEnter, mkOrch, enterStateB, SessM.bind, SessM.pure]
  · intro hfind htgt
    cases ha : t.assign with
    | none =>
        simp only [postAssignCtx, ha] at hfind
        simp only [executeTransition, mkOrch, executeTransitionB, enterStateB,
          postAssignCtx, postAssignSess, assignEvents, ha, hb, htgt,
          SessM.bind, SessM.pure, transitionToState, updateContext,
          sessM_bind_apply, sessM_pure_apply, getSessionState_apply,
          getFlowConfig_apply, setSessionState_apply, emitEvent_apply,
          throwErr_apply, hfind]
        simp [hfind]
    | some entries =>
        simp only [postAssignCtx, ha] at hfind
        simp only [executeTransition, mkOrch, executeTransitionB, enterStateB,
          postAssignCtx, postAssignSess, assignEvents, ha, hb, htgt,
          SessM.bind, SessM.pure, transitionToState, updateContext,
          sessM_bind_apply, sessM_pure_apply, getSessionState_apply,
          getFlowConfig_apply, setSessionState_apply, emitEvent_apply,
          throwErr_apply, hfind]
        simp [hfind]

end EventBusFSM

namespace EventBusFSM

/-- The witness transition: an `else` branch to B plus a `to: C` field. -/
def c4TransW : TransitionConfig :=
  { branch := some [⟨"else", "B"⟩], toState := some "C" }

/-- C4 amended witness: with the always-true `else` branch present, the
transition enters B (the branch target), not C. -/
theorem c4_amended_branch_first_match_witness :
    executeTransition [] (8 + 2) c4TransW c4Sess c4Flow none none c4Data
      = (.ok (), { c4Data with
          session := some ⟨"s4", "B", [("x", .vnum 4)], none, none, none⟩
          events := [.fsmTransition "S0" "B"] }) := by
  have h := (c4_amended_branch_first_match [] 8 c4TransW c4Sess c4Flow c4Data
    [⟨"else", "B"⟩] none none rfl rfl rfl).1 ⟨"else", "B"⟩ rfl {} rfl rfl
  simpa [postAssignSess, postAssignCtx, assignEvents, c4Data, c4Sess, c4TransW] using h

/-! ### C10: processToolResult correlation behaviour -/

/-- C10 part (b) fixture: the session's last call has id `id-1`, but the
result arrives with id `OTHER-id`. -/
def c10Flow : FlowConfig := {
  meta := ⟨"C10", none, none⟩
  start := "S"
  intents := []
  tools := []
  states := [
    ("S", { transitions := some [{ onToolResult := some "T", toState := some "S2" }] }),
    ("S2", {})] }

/-- Session in S whose last tool call is (id-1, T). -/
def c10Sess : SessionState :=
  ⟨"s10", "S", [], none, some ⟨"id-1", "T", .vobj []⟩, none⟩

/-- Its store. -/
def c10Data : Data := ⟨some c10Sess, some c10Flow, [], 0⟩

/-- C10: (a) for every store whose session has no recorded `lastToolCall`, a
`processToolResult` call stores the result as `lastToolResult` (under the
given id, whatever it is), emits exactly the one `tool.result` event, and
changes nothing else — no transition and no further event; (b) concretely, a
result whose id differs from the last call's id (`OTHER-id` vs `id-1`) is
still recorded and still triggers the transition matched purely on the tool
NAME — the id is never compared. -/
theorem c10_result_matching_ignores_call_id :
    (∀ (reg : Registry) (fuel : Nat) (d : Data) (s0 : SessionState)
       (flow : FlowConfig) (tid : String) (res : Value),
      d.session = some s0 → d.flow = some flow → s0.lastToolCall = none →
      processToolResult reg (fuel + 2) tid res d
        = (.ok (), { d with
            session := some { s0 with lastToolResult := some ⟨tid, res⟩ }
            events := d.events ++ [.toolResult tid res] })) ∧
    (processToolResult [] 10 "OTHER-id" (.vobj [("ok", .vbool true)]) c10Data
      = (.ok (), { c10Data with
          session := some { c10Sess with
            currentState := "S2"
            lastToolResult := some ⟨"OTHER-id", .vobj [("ok", .vbool true)]⟩ }
          events := [.toolResult "OTHER-id" (.vobj [("ok", .vbool true)]),
                     .fsmTransition "S" "S2"] })) := by
  constructor
  · intro reg fuel d s0 flow tid res hs hf hltc
    obtain ⟨ds, df, de, dn⟩ := d
    simp only [Data.session] at hs
    simp only [Data.flow] at hf
    subst hs
    subst hf
    simp only [processToolResult, mkOrch, processToolResultB,
      processToolResultTransitionB, storeToolResult, SessM.bind, SessM.pure,
      sessM_bind_apply, sessM_pure_apply, getSessionState_apply,
      getFlowConfig_apply, setSessionState_apply, emitEvent_apply,
      throwErr_apply, hltc]
    cases hcur : lookupKey flow.states s0.currentState with
    | none => simp [hcur, hltc]
    | some cfg =>
        cases htr : cfg.transitions with
        | none => simp [hcur, htr, hltc]
        | some ts => simp [hcur, htr, hltc]
  · rfl

/-- C10 witness: the no-lastToolCall conjunct at a concrete store — the
result is recorded and only `tool.result` is emitted. -/
theorem c10_result_matching_ignores_call_id_witness :
    processToolResult [] (8 + 2) "tid-77" (.vstr "r")
        ⟨some ⟨"w", "S", [], none, none, none⟩, some c10Flow, [], 0⟩
      = (.ok (), ⟨some ⟨"w", "S", [], none, none, some ⟨"tid-77", .vstr "r"⟩⟩,
          some c10Flow, [.toolResult "tid-77" (.vstr "r")], 0⟩) := by
  have h := c10_result_matching_ignores_call_id.1 [] 8
    ⟨some ⟨"w", "S", [], none, none, none⟩, some c10Flow, [], 0⟩
    ⟨"w", "S", [], none, none, none⟩ c10Flow "tid-77" (.vstr "r") rfl rfl rfl
  simpa using h

end EventBusFSM

namespace EventBusFSM

/-! ### C5: the SafeToolWorker retry wrapper -/

/-- One-level unfolding of the orchestrator knot. -/
theorem mkOrch_succ (reg : Registry) (n : Nat) :
    mkOrch reg (n + 1)
      = { enterState := enterStateB (mkOrch reg n)
          execActions := execActionsB (mkOrch reg n)
          executeAction := executeActionB (mkOrch reg n)
          executeTool := executeToolB reg (mkOrch reg n)
          execWorker := execWorkerB (mkOrch reg n)
          execSafeLoop := execSafeLoopB (mkOrch reg n)
          processToolResult := processToolResultB (mkOrch reg n)
          processToolResultTransition := processToolResultTransitionB (mkOrch reg n)
          executeTransition := executeTransitionB (mkOrch reg n) } := rfl

/-- A wrapped always-failing worker at any level ≥ 1 just throws. -/
theorem execWorker_failing (reg : Registry) (m sid tid : String) (args : Value)
    (n : Nat) (d : Data) :
    (mkOrch reg (n + 1)).execWorker (.failing m) sid tid args d
      = (.error m, d) := by
  rw [mkOrch_succ]
  simp [execWorkerB]

/-- An always-failing inner worker makes the retry loop run through all its
attempts and rethrow the last error, leaving the store untouched (in
particular: no event — hence no re-emitted `tool.call` — during retries). -/
theorem safe_failing_loop (reg : Registry) (m sid tid : String)
    (args : Value) :
    ∀ (k fuel : Nat) (lastErr : Option String) (d : Data),
      (mkOrch reg (fuel + k + 2)).execSafeLoop (.failing m) sid tid args
        (k + 1) lastErr d = (.error m, d) := by
  intro k
  induction k with
  | zero =>
      intro fuel lastErr d
      rw [show fuel + 0 + 2 = (fuel + 1) + 1 from by omega, mkOrch_succ]
      simp only [execSafeLoopB, tryCatch_apply]
      rw [show fuel + 1 = fuel + 1 from rfl,
        execWorker_failing reg m sid tid args fuel d]
      rw [show (fuel + 1 : Nat) = fuel + 1 from rfl]
      obtain ⟨f, hf⟩ : ∃ f, fuel + 1 = f + 1 := ⟨fuel, rfl⟩
      rw [hf, mkOrch_succ]
      simp [execSafeLoopB]
  | succ k ih =>
      intro fuel lastErr d
      rw [show fuel + (k + 1) + 2 = (fuel + k + 2) + 1 from by omega, mkOrch_succ]
      simp only [execSafeLoopB, tryCatch_apply]
      rw [show fuel + k + 2 = (fuel + k + 1) + 1 from by omega,
        execWorker_failing reg m sid tid args (fuel + k + 1) d]
      rw [show (fuel + k + 1) + 1 = fuel + k + 2 from by omega]
      exact ih fuel (some m) d

/-- The resolved args of the C5 `executeTool` scenario. -/
def c5Args (argsT : Value) (s0 : SessionState) : Value :=
  resolveToolArgs argsT s0.context (some [])
    (s0.lastToolResult.map (fun r => r.result))

/-- The session after `storeToolCall` in the C5 scenario. -/
def c5SessAfter (s0 : SessionState) (dn : Nat) (toolName : String)
    (argsT : Value) : SessionState :=
  { s0 with lastToolCall := some ⟨"uuid-" ++ toString dn, toolName, c5Args argsT s0⟩ }

/-- C5: behaviour of `SafeToolWorker`-wrapped workers.

1. A wrapped always-succeeding worker returns its first attempt's result and
   leaves the store untouched.
2. A wrapped always-failing worker propagates only the (final) failure and
   leaves the store untouched — in particular no `tool.call` is re-emitted
   during retries.
3. Through `executeTool`, a failing wrapped worker produces exactly one
   `tool.call` and then exactly one `tool.error` carrying the same fresh
   tool-call id and the failure reason; `currentState` is unchanged (only
   `lastToolCall` is recorded).
4. Concretely, with maxRetries = 3 and an instrumented worker scripted to
   fail twice then succeed, the wrapper makes exactly 3 attempts and returns
   the success; scripted to succeed at once, it makes exactly 1 attempt;
   scripted to always fail with per-attempt messages, it makes exactly 3
   attempts and throws the THIRD attempt's error. -/
theorem c5_safe_retry_wrapper :
    (∀ (reg : Registry) (fuel n : Nat) (v : Value) (sid tid : String)
       (args : Value) (d : Data),
      execWorker reg (fuel + 3) (.safe (.pureW v) (n + 1)) sid tid args d
        = (.ok v, d)) ∧
    (∀ (reg : Registry) (fuel k : Nat) (m : String) (sid tid : String)
       (args : Value) (d : Data),
      execWorker reg (fuel + k + 3) (.safe (.failing m) (k + 1)) sid tid args d
        = (.error m, d)) ∧
    (∀ (reg : Registry) (fuel k : Nat) (m toolName : String) (argsT : Value)
       (s0 : SessionState) (flow : FlowConfig) (d : Data),
      d.session = some s0 →
      lookupKey reg toolName = some (.safe (.failing m) (k + 1)) →
      executeTool reg (fuel + k + 4) toolName argsT s0 flow d
        = (.ok (), ⟨some (c5SessAfter s0 d.nextId toolName argsT),
            d.flow,
            d.events
              ++ [.toolCall ("uuid-" ++ toString d.nextId) toolName (c5Args argsT s0),
                  .toolError ("uuid-" ++ toString d.nextId) m],
            d.nextId + 1⟩)) ∧
    (execWorker [] 20 (.safe (.probe [none, none, some (.vstr "ok!")]) 3)
        "s" "t" .vnull ⟨none, none, [], 0⟩
      = (.ok (.vstr "ok!"), ⟨none, none, [probeMark, probeMark, probeMark], 0⟩)) ∧
    (execWorker [] 20 (.safe (.probe [some (.vstr "ok!")]) 3)
        "s" "t" .vnull ⟨none, none, [], 0⟩
      = (.ok (.vstr "ok!"), ⟨none, none, [probeMark], 0⟩)) ∧
    (execWorker [] 20 (.safe (.probe [none, none, none]) 3)
        "s" "t" .vnull ⟨none, none, [], 0⟩
      = (.error "attempt-2", ⟨none, none, [probeMark, probeMark, probeMark], 0⟩)) := by
  refine ⟨?_, ?_, ?_, rfl, rfl, rfl⟩
  · intro reg fuel n v sid tid args d
    rw [execWorker, show fuel + 3 = (fuel + 2) + 1 from by omega, mkOrch_succ]
    simp only [execWorkerB]
    rw [show fuel + 2 = (fuel + 1) + 1 from by omega, mkOrch_succ]
    simp only [execSafeLoopB, tryCatch_apply]
    rw [show fuel + 1 = fuel + 1 from rfl]
    obtain ⟨f, hf⟩ : ∃ f, fuel + 1 = f + 1 := ⟨fuel, rfl⟩
    rw [hf, mkOrch_succ]
    simp [execWorkerB, SessM.pure]
  · intro reg fuel k m sid tid args d
    rw [execWorker, show fuel + k + 3 = (fuel + k + 2) + 1 from by omega,
      mkOrch_succ]
    simp only [execWorkerB]
    exact safe_failing_loop reg m sid tid args k fuel none d
  · intro reg fuel k m toolName argsT s0 flow d hs hreg
    obtain ⟨ds, df, de, dn⟩ := d
    simp only [Data.session] at hs
    subst hs
    rw [executeTool, show fuel + k + 4 = (fuel + k + 3) + 1 from by omega,
      mkOrch_succ]
    simp only [executeToolB, storeToolCall, SessM.bind, SessM.pure,
      sessM_bind_def, sessM_pure_def,
      sessM_bind_apply, sessM_pure_apply, getSessionState_apply,
      setSessionState_apply, emitEvent_apply, freshId_apply, throwErr_apply,
      tryCatch_apply, hreg]
    have hw : ∀ d', (mkOrch reg (fuel + k + 3)).execWorker
        (.safe (.failing m) (k + 1)) s0.sessionId ("uuid-" ++ toString dn)
        (c5Args argsT s0) d' = (.error m, d') := by
      intro d'
      rw [show fuel + k + 3 = (fuel + k + 2) + 1 from by omega, mkOrch_succ]
      simp only [execWorkerB]
      exact safe_failing_loop reg m s0.sessionId ("uuid-" ++ toString dn)
        (c5Args argsT s0) k fuel none d'
    rw [show resolveToolArgs argsT s0.context (some [])
        (Option.map (fun r => r.result) s0.lastToolResult) = c5Args argsT s0
      from rfl]
    rw [hw]
    simp [c5Args, c5SessAfter]

/-- C5 witness: the failing-worker `executeTool` conjunct at a concrete
store — one `tool.call` then one `tool.error` with the same id, currentState
unchanged. -/
theorem c5_safe_retry_wrapper_witness :
    executeTool [("T", .safe (.failing "boom") 3)] (0 + 2 + 4) "T" (.vobj [])
        ⟨"w5", "S", [], none, none, none⟩ c2Flow
        ⟨some ⟨"w5", "S", [], none, none, none⟩, some c2Flow, [], 0⟩
      = (.ok (), ⟨some ⟨"w5", "S", [], none, some ⟨"uuid-0", "T", .vobj []⟩, none⟩,
          some c2Flow,
          [.toolCall "uuid-0" "T" (.vobj []), .toolError "uuid-0" "boom"], 1⟩) := by
  have h := (c5_safe_retry_wrapper.2.2.1) [("T", .safe (.failing "boom") 3)] 0 2
    "boom" "T" (.vobj []) ⟨"w5", "S", [], none, none, none⟩ c2Flow
    ⟨some ⟨"w5", "S", [], none, none, none⟩, some c2Flow, [], 0⟩ rfl rfl
  simpa [c5Args, c5SessAfter] using h

end EventBusFSM

namespace EventBusFSM

/-! ### C1: which operations hold the session lock -/

/-- A store whose session lock is currently held (by another process). -/
def c1LockedStore : Store := ⟨true, c10Data⟩

/-- A trivial classifier for exercising `processUserInput`. -/
def c1Classifier : Classifier := mockClassifier (fun _ _ => none) ⟨0, 1⟩

/-- C1 fails on the code: with the session lock already held,
`enterState` and `processToolResult` still run to completion, mutating the
session and emitting events — so their bodies are NOT inside `withLock`
(which fails fast exactly as `processUserInput` here does). -/
theorem c1_counterexample_ops_run_while_locked :
    c1LockedStore.locked = true ∧
    (enterStateOp [] 10 "S2" c1LockedStore).1 = .ok () ∧
    (enterStateOp [] 10 "S2" c1LockedStore).2.data.events
      = [.fsmTransition "S" "S2"] ∧
    (processToolResultOp [] 10 "x" .vnull c1LockedStore).1 = .ok () ∧
    (processToolResultOp [] 10 "x" .vnull c1LockedStore).2.data.events
      = [.toolResult "x" .vnull, .fsmTransition "S" "S2"] ∧
    (processUserInput [] c1Classifier 10 "hi" c1LockedStore).1
      = .error "Failed to acquire lock" :=
  ⟨rfl, rfl, rfl, rfl, rfl, rfl⟩

/-- C1 as amended: only `processUserInput` runs inside `withLock` — it fails
fast (with the store untouched) whenever the lock is already held; and
`enterState` and `processToolResult` execute without acquiring or checking
the lock: they behave identically for any lock state and leave the lock flag
exactly as it was. -/
theorem c1_amended_only_user_input_locks :
    (∀ (reg : Registry) (cl : Classifier) (fuel : Nat) (text : String)
       (st : Store), st.locked = true →
      processUserInput reg cl fuel text st = (.error "Failed to acquire lock", st)) ∧
    (∀ (reg : Registry) (fuel : Nat) (name : String) (b : Bool) (d : Data),
      enterStateOp reg fuel name ⟨b, d⟩
        = ((enterState reg fuel name d).1, ⟨b, (enterState reg fuel name d).2⟩)) ∧
    (∀ (reg : Registry) (fuel : Nat) (tid : String) (res : Value) (b : Bool)
       (d : Data),
      processToolResultOp reg fuel tid res ⟨b, d⟩
        = ((processToolResult reg fuel tid res d).1,
            ⟨b, (processToolResult reg fuel tid res d).2⟩)) := by
  refine ⟨?_, ?_, ?_⟩
  · intro reg cl fuel text st h
    simp [processUserInput, withLock, h]
  · intro reg fuel name b d
    cases hm : enterState reg fuel name d with
    | mk r d' => simp [enterStateOp, liftData, hm]
  · intro reg fuel tid res b d
    cases hm : processToolResult reg fuel tid res d with
    | mk r d' => simp [processToolResultOp, liftData, hm]

/-- C1 amended witness: `processUserInput` on a concrete locked store fails
fast with the store unchanged. -/
theorem c1_amended_only_user_input_locks_witness :
    processUserInput [] c1Classifier 10 "hi" c1LockedStore
      = (.error "Failed to acquire lock", c1LockedStore) :=
  c1_amended_only_user_input_locks.1 [] c1Classifier 10 "hi" c1LockedStore rfl

end EventBusFSM

namespace EventBusFSM

/-! ### C8: the deterministic fallback classifier -/

/-- Modelled from the claim's words (spec §4.5): the fraction of an
intent's example tokens that are present in the lowercased user text, used
only to compare against the code's behaviour. -/
def claimFractionScore (text : String) (defn : IntentDefinition) : JNum :=
  let lowerText := lowerList text.data
  let tokens := defn.examples.flatMap (fun ex => splitWs (lowerList ex.data))
  let matched := tokens.filter (fun w => hasSub w lowerText)
  (JNum.ofNat matched.length).div (JNum.ofNat tokens.length)

/-- Catalog for the counterexample: A's single example shares one of two
tokens with the text, B's shares both. -/
def c8Intents : List (String × IntentDefinition) :=
  [("A", ⟨["zig qux"], []⟩), ("B", ⟨["zig zag"], []⟩)]

/-- A slot oracle that extracts nothing (the catalogs here declare no
slots, so every oracle gives the same results). -/
def c8Oracle : SlotOracle := fun _ _ => none

/-- C8 fails on the code: on the text `zig zag zebra`, the fraction of
example tokens present is 1/2 for A and 1 for B, so the argmax over the
catalog is uniquely B — but the classifier returns A (the first intent of
the catalog) at confidence 0.2, because no intent's internal score exceeds
the 0.5 threshold. -/
theorem c8_counterexample_not_argmax :
    (classifyIntent c8Oracle ⟨0, 1⟩ "zig zag zebra" c8Intents).name = "A" ∧
    (classifyIntent c8Oracle ⟨0, 1⟩ "zig zag zebra" c8Intents).confidence = ⟨1, 5⟩ ∧
    claimFractionScore "zig zag zebra" ⟨["zig qux"], []⟩ = ⟨1, 2⟩ ∧
    claimFractionScore "zig zag zebra" ⟨["zig zag"], []⟩ = ⟨1, 1⟩ :=
  ⟨rfl, rfl, rfl, rfl⟩

/-- find? skips a prefix on which the predicate is false. -/
theorem find?_append_of_false {α : Type} {p : α → Bool} :
    ∀ (l1 : List α), (∀ x ∈ l1, p x = false) → ∀ l2 : List α,
      (l1 ++ l2).find? p = l2.find? p := by
  intro l1
  induction l1 with
  | nil => intro _ l2; simp
  | cons a l ih =>
      intro h l2
      have ha : p a = false := h a (by simp)
      rw [List.cons_append, List.find?_cons, ha]
      exact ih (fun x hx => h x (by simp [hx])) l2

/-- Three-intent catalog for the sentinel sweep. -/
def c8Three : List (String × IntentDefinition) :=
  [("A", ⟨["zig qux"], []⟩), ("B", ⟨["zig zag"], []⟩), ("C", ⟨["quux"], []⟩)]

/-- C8 as amended.
1. A user text whose trimmed form ends in the exact sentinel `(HANG ON)`
   always yields confidence exactly 0.3 and no slots, for every oracle,
   random draw and catalog; and the random index sweeps the whole catalog —
   on a three-intent catalog, draws 0, 1/3 and 2/3 select the first, second
   and third intent.
2. Otherwise the catalog is scanned in declaration order: the first intent
   whose `matchIntent` score (example-token fraction × 0.5 plus slot and
   keyword bonuses, capped at 0.95) strictly exceeds 0.5 is returned with
   that score and its extracted slots — NOT the argmax.
3. When no intent's score exceeds 0.5, the first intent of the catalog is
   returned at confidence 0.2 with no slots. -/
theorem c8_amended_first_over_threshold :
    (∀ (extract : SlotOracle) (r : JNum) (text : String)
       (intents : List (String × IntentDefinition)),
      endsWithList "(HANG ON)".data (trimList text.data) = true →
      (classifyIntent extract r text intents).confidence = ⟨3, 10⟩ ∧
      (classifyIntent extract r text intents).slots = []) ∧
    ((classifyIntent c8Oracle ⟨0, 1⟩ "x (HANG ON)" c8Three).name = "A" ∧
     (classifyIntent c8Oracle ⟨1, 3⟩ "x (HANG ON)" c8Three).name = "B" ∧
     (classifyIntent c8Oracle ⟨2, 3⟩ "x (HANG ON)" c8Three).name = "C") ∧
    (∀ (extract : SlotOracle) (r : JNum) (text : String)
       (pre post : List (String × IntentDefinition)) (name : String)
       (defn : IntentDefinition),
      endsWithList "(HANG ON)".data (trimList text.data) = false →
      (∀ p ∈ pre,
        JNum.lt ⟨1, 2⟩ (matchIntent extract (cleanTextOf text) p.2).1 = false) →
      JNum.lt ⟨1, 2⟩ (matchIntent extract (cleanTextOf text) defn).1 = true →
      classifyIntent extract r text (pre ++ (name, defn) :: post)
        = ⟨name, (matchIntent extract (cleanTextOf text) defn).1,
            (matchIntent extract (cleanTextOf text) defn).2⟩) ∧
    (∀ (extract : SlotOracle) (r : JNum) (text : String)
       (intents : List (String × IntentDefinition)),
      endsWithList "(HANG ON)".data (trimList text.data) = false →
      (∀ p ∈ intents,
        JNum.lt ⟨1, 2⟩ (matchIntent extract (cleanTextOf text) p.2).1 = false) →
      classifyIntent extract r text intents
        = ⟨((intents.head?).map (fun p => p.1)).getD "", ⟨1, 5⟩, []⟩) := by
  refine ⟨?_, ⟨rfl, rfl, rfl⟩, ?_, ?_⟩
  · intro extract r text intents h
    constructor
    · simp [classifyIntent, h]
    · simp [classifyIntent, h]
  · intro extract r text pre post name defn h hpre hsel
    simp only [classifyIntent, h, Bool.false_eq_true, if_false]
    rw [find?_append_of_false pre hpre ((name, defn) :: post)]
    simp [List.find?, hsel]
  · intro extract r text intents h hall
    simp only [classifyIntent, h, Bool.false_eq_true, if_false]
    rw [List.find?_eq_none.mpr (fun x hx => by simp [hall x hx])]

/-- C8 amended witness: the first-over-threshold conjunct at a concrete
input — with a catalog whose second intent is the first to clear 0.5, that
intent is returned with its computed score. -/
theorem c8_amended_first_over_threshold_witness :
    classifyIntent c8Oracle ⟨0, 1⟩ "i want to book a reservation"
        ([("A", ⟨["zig qux"], []⟩)] ++ ("B", ⟨["book a reservation"], []⟩) :: [])
      = ⟨"B", (matchIntent c8Oracle
          (cleanTextOf "i want to book a reservation") ⟨["book a reservation"], []⟩).1,
          (matchIntent c8Oracle
          (cleanTextOf "i want to book a reservation") ⟨["book a reservation"], []⟩).2⟩ :=
  c8_amended_first_over_threshold.2.2.1 c8Oracle ⟨0, 1⟩
    "i want to book a reservation" [("A", ⟨["zig qux"], []⟩)] []
    "B" ⟨["book a reservation"], []⟩ rfl
    (by intro p hp; simp at hp; subst hp; rfl) rfl

end EventBusFSM

namespace EventBusFSM

/-! ### C9: correctness of the unreachable-state analysis -/

/-- One forward step of the traversal the validator performs: from state `a`
one can reach name `x` when `a` is a state whose transition list names `x`
as a (truthy) `to` or branch target. -/
def stepRel (states : List (String × StateConfig)) (a x : String) : Prop :=
  x ≠ "" ∧ ∃ cfg ts, lookupKey states a = some cfg ∧ cfg.transitions = some ts ∧
    some x ∈ flattenTargets ts

/-- One transition's fold step is the flat fold of its targets. -/
theorem transTargetsStep_eq (acc : List String × List String)
    (t : TransitionConfig) :
    transTargetsStep acc t
      = (t.toState :: (match t.branch with
          | some bs => bs.map (fun b => some b.toState)
          | none => [])).foldl addTargetBFS acc := by
  cases hb : t.branch with
  | none => simp [transTargetsStep, hb, List.foldl]
  | some bs =>
      simp only [transTargetsStep, hb, List.foldl]
      rw [List.foldl_map]

/-- The whole transition-list fold is the flat fold of `flattenTargets`. -/
theorem foldl_transTargets_eq (ts : List TransitionConfig) :
    ∀ acc, ts.foldl transTargetsStep acc
      = (flattenTargets ts).foldl addTargetBFS acc := by
  induction ts with
  | nil => intro acc; simp [flattenTargets]
  | cons t rest ih =>
      intro acc
      have hflat : flattenTargets (t :: rest)
          = (t.toState :: (match t.branch with
              | some bs => bs.map (fun b => some b.toState)
              | none => [])) ++ flattenTargets rest := by
        simp [flattenTargets]
      rw [List.foldl_cons, transTargetsStep_eq, hflat, List.foldl_append, ih]

/-- The flat fold appends the same new-name list `δ` to both the visited
set and the queue; the new names are nonempty, previously unvisited,
mutually distinct, and drawn from the folded target list. -/
theorem foldAdd_delta (L : List (Option String)) :
    ∀ v q, ∃ δ : List String,
      (L.foldl addTargetBFS (v, q)).1 = v ++ δ ∧
      (L.foldl addTargetBFS (v, q)).2 = q ++ δ ∧
      δ.Nodup ∧ (∀ x ∈ δ, some x ∈ L ∧ x ≠ "" ∧ x ∉ v) := by
  induction L with
  | nil => intro v q; exact ⟨[], by simp, by simp, List.nodup_nil, by simp⟩
  | cons o L ih =>
      intro v q
      cases o with
      | none =>
          obtain ⟨δ, h1, h2, h3, h4⟩ := ih v q
          refine ⟨δ, ?_, ?_, h3, ?_⟩
          · simpa [addTargetBFS] using h1
          · simpa [addTargetBFS] using h2
          · intro x hx
            obtain ⟨hL, hne, hv⟩ := h4 x hx
            exact ⟨by simp [hL], hne, hv⟩
      | some t =>
          by_cases hc : t ≠ "" ∧ ¬ v.contains t
          · obtain ⟨δ, h1, h2, h3, h4⟩ := ih (v ++ [t]) (q ++ [t])
            have hstep : addTargetBFS (v, q) (some t) = (v ++ [t], q ++ [t]) := by
              simp only [addTargetBFS]
              rw [if_pos]
              constructor
              · exact hc.1
              · intro hmem
                exact hc.2 (by simpa using hmem)
            refine ⟨t :: δ, ?_, ?_, ?_, ?_⟩
            · simp only [List.foldl_cons, hstep, h1]
              simp
            · simp only [List.foldl_cons, hstep, h2]
              simp
            · refine List.nodup_cons.mpr ⟨?_, h3⟩
              intro hmem
              have := (h4 t hmem).2.2
              simp at this
            · intro x hx
              rcases List.mem_cons.mp hx with rfl | hx'
              · refine ⟨by simp, hc.1, ?_⟩
                intro hv
                exact hc.2 (by simpa using hv)
              · obtain ⟨hL, hne, hv⟩ := h4 x hx'
                refine ⟨by simp [hL], hne, ?_⟩
                intro hmem
                exact hv (by simp [hmem])
          · have hstep : addTargetBFS (v, q) (some t) = (v, q) := by
              simp only [addTargetBFS]
              rw [if_neg]
              intro ⟨hne, hnm⟩
              exact hc ⟨hne, fun hcon => hnm (by simpa using hcon)⟩
            obtain ⟨δ, h1, h2, h3, h4⟩ := ih v q
            exact ⟨δ, by simp only [List.foldl_cons, hstep]; exact h1,
              by simp only [List.foldl_cons, hstep]; exact h2, h3,
              fun x hx =>
                ⟨by simp [(h4 x hx).1], (h4 x hx).2.1, (h4 x hx).2.2⟩⟩

/-- Every nonempty name in the folded target list ends up visited. -/
theorem foldAdd_complete (L : List (Option String)) :
    ∀ v q x, some x ∈ L → x ≠ "" → x ∈ (L.foldl addTargetBFS (v, q)).1 := by
  induction L with
  | nil => intro v q x hx; simp at hx
  | cons o L ih =>
      intro v q x hx hne
      rcases List.mem_cons.mp hx with rfl | hx'
      · -- processed at the head: x is visited afterwards, and stays so
        have hmem : x ∈ (addTargetBFS (v, q) (some x)).1 := by
          simp only [addTargetBFS]
          by_cases hc : x ≠ "" ∧ ¬ v.contains x
          · rw [if_pos hc]; simp
          · rw [if_neg hc]
            rcases not_and_or.mp hc with h | h
            · exact absurd hne h
            · have : v.contains x := not_not.mp h
              simpa using this
        obtain ⟨δ, h1, _, _, _⟩ :=
          foldAdd_delta L (addTargetBFS (v, q) (some x)).1
            (addTargetBFS (v, q) (some x)).2
        rw [List.foldl_cons]
        rw [show L.foldl addTargetBFS (addTargetBFS (v, q) (some x))
            = L.foldl addTargetBFS ((addTargetBFS (v, q) (some x)).1,
                (addTargetBFS (v, q) (some x)).2) from by simp]
        rw [h1]
        exact List.mem_append.mpr (Or.inl hmem)
      · rw [List.foldl_cons]
        exact ih _ _ x hx' hne

end EventBusFSM

namespace EventBusFSM

/-- A successful association-list lookup pairs the key with a list member. -/
theorem lookupKey_mem {α : Type} {l : List (String × α)} {k : String} {v : α}
    (h : lookupKey l k = some v) : (k, v) ∈ l := by
  simp only [lookupKey, Option.map_eq_some'] at h
  obtain ⟨p, hp, hv⟩ := h
  have hmem := List.mem_of_find?_eq_some hp
  have hk : p.1 = k := by simpa using List.find?_some hp
  obtain ⟨p1, p2⟩ := p
  simp only at hk hv
  subst hk; subst hv
  exact hmem

/-- A target drawn from a looked-up state's transition list is in the
global target pool. -/
theorem mem_allTargets_of_flatten {states : List (String × StateConfig)}
    {cur : String} {st : StateConfig} {ts : List TransitionConfig} {x : String}
    (hl : lookupKey states cur = some st) (ht : st.transitions = some ts)
    (hx : some x ∈ flattenTargets ts) : x ∈ allTargets states := by
  have hmem := lookupKey_mem hl
  simp only [allTargets, List.mem_flatMap]
  refine ⟨(cur, st), hmem, ?_⟩
  simp only [ht]
  rw [List.mem_filterMap]
  exact ⟨some x, hx, rfl⟩

/-- Distinct target names not yet visited: the quantity the BFS fuel
budget bounds. -/
def countRem (states : List (String × StateConfig)) (v : List String) : Nat :=
  ((allTargets states).toFinset \ v.toFinset).card

theorem countRem_le (states : List (String × StateConfig)) (v : List String) :
    countRem states v ≤ (allTargets states).length :=
  le_trans (Finset.card_le_card Finset.sdiff_subset) (List.toFinset_card_le _)

/-- Visiting a batch of fresh distinct target names shrinks the budget by
exactly the batch size. -/
theorem countRem_drop (states : List (String × StateConfig))
    (v δ : List String) (hnd : δ.Nodup)
    (hsub : ∀ x ∈ δ, x ∈ allTargets states ∧ x ∉ v) :
    countRem states (v ++ δ) + δ.length = countRem states v := by
  have hδsub : δ.toFinset ⊆ (allTargets states).toFinset \ v.toFinset := by
    intro x hx
    rw [List.mem_toFinset] at hx
    rcases hsub x hx with ⟨h1, h2⟩
    rw [Finset.mem_sdiff, List.mem_toFinset, List.mem_toFinset]
    exact ⟨h1, h2⟩
  have hsplit : (allTargets states).toFinset \ (v ++ δ).toFinset
      = ((allTargets states).toFinset \ v.toFinset) \ δ.toFinset := by
    ext y
    simp only [Finset.mem_sdiff, List.mem_toFinset, List.mem_append]
    tauto
  have hle := Finset.card_le_card hδsub
  rw [List.toFinset_card_of_nodup hnd] at hle
  unfold countRem
  rw [hsplit, Finset.card_sdiff hδsub, List.toFinset_card_of_nodup hnd]
  omega

/-- One-step unfolding of the BFS loop on a nonempty queue. -/
theorem bfsF_succ_cons (states : List (String × StateConfig)) (f : Nat)
    (visited : List String) (cur : String) (rest : List String) :
    bfsF states (f+1) visited (cur :: rest)
      = match lookupKey states cur with
        | some st =>
          match st.transitions with
          | some ts =>
            bfsF states f (ts.foldl transTargetsStep (visited, [])).1
              (rest ++ (ts.foldl transTargetsStep (visited, [])).2)
          | none => bfsF states f visited rest
        | none => bfsF states f visited rest := rfl

/-- The BFS never forgets a visited state. -/
theorem bfsF_grow (states : List (String × StateConfig)) :
    ∀ fuel visited queue, ∀ x ∈ visited, x ∈ bfsF states fuel visited queue := by
  intro fuel
  induction fuel with
  | zero => intro visited queue x hx; simpa [bfsF] using hx
  | succ f ih =>
      intro visited queue x hx
      cases queue with
      | nil => simpa [bfsF] using hx
      | cons cur rest =>
          cases hl : lookupKey states cur with
          | none => simp only [bfsF_succ_cons, hl]; exact ih _ _ x hx
          | some st =>
              cases ht : st.transitions with
              | none => simp only [bfsF_succ_cons, hl, ht]; exact ih _ _ x hx
              | some ts =>
                  simp only [bfsF_succ_cons, hl, ht, foldl_transTargets_eq]
                  obtain ⟨δ, h1, _, _, _⟩ :=
                    foldAdd_delta (flattenTargets ts) visited []
                  rw [h1]
                  exact ih _ _ x (List.mem_append.mpr (Or.inl hx))

end EventBusFSM

namespace EventBusFSM

/-- Everything the BFS visits is reachable from `s` along `stepRel`,
provided the initial visited set is and the queue is drawn from it. -/
theorem bfsF_sound (states : List (String × StateConfig)) (s : String) :
    ∀ fuel visited queue,
      (∀ v ∈ visited, Relation.ReflTransGen (stepRel states) s v) →
      (∀ q ∈ queue, q ∈ visited) →
      ∀ x ∈ bfsF states fuel visited queue,
        Relation.ReflTransGen (stepRel states) s x := by
  intro fuel
  induction fuel with
  | zero => intro visited queue hv hq x hx; exact hv x (by simpa [bfsF] using hx)
  | succ f ih =>
      intro visited queue hv hq x hx
      cases queue with
      | nil => exact hv x (by simpa [bfsF] using hx)
      | cons cur rest =>
          have hqr : ∀ q ∈ rest, q ∈ visited := fun q hqm =>
            hq q (List.mem_cons.mpr (Or.inr hqm))
          cases hl : lookupKey states cur with
          | none =>
              simp only [bfsF_succ_cons, hl] at hx
              exact ih visited rest hv hqr x hx
          | some st =>
              cases ht : st.transitions with
              | none =>
                  simp only [bfsF_succ_cons, hl, ht] at hx
                  exact ih visited rest hv hqr x hx
              | some ts =>
                  obtain ⟨δ, h1, h2, hnd, hprops⟩ :=
                    foldAdd_delta (flattenTargets ts) visited []
                  rw [List.nil_append] at h2
                  simp only [bfsF_succ_cons, hl, ht, foldl_transTargets_eq]
                    at hx
                  rw [h1, h2] at hx
                  have hcurR : Relation.ReflTransGen (stepRel states) s cur :=
                    hv cur (hq cur (List.mem_cons.mpr (Or.inl rfl)))
                  refine ih (visited ++ δ) (rest ++ δ) ?_ ?_ x hx
                  · intro v hvm
                    rcases List.mem_append.mp hvm with hvv | hvd
                    · exact hv v hvv
                    · obtain ⟨hL, hne, _⟩ := hprops v hvd
                      exact hcurR.tail ⟨hne, st, ts, hl, ht, hL⟩
                  · intro q hqm
                    rcases List.mem_append.mp hqm with hqq | hqd
                    · exact List.mem_append.mpr (Or.inl (hqr q hqq))
                    · exact List.mem_append.mpr (Or.inr hqd)

/-- Given enough fuel, the visited set the BFS returns is closed under
`stepRel`, assuming the invariant that processed states are already
closed. -/
theorem bfsF_run (states : List (String × StateConfig)) :
    ∀ fuel visited queue,
      (∀ q ∈ queue, q ∈ visited) →
      queue.length + countRem states visited ≤ fuel →
      (∀ a ∈ visited, a ∉ queue → ∀ x, stepRel states a x → x ∈ visited) →
      ∀ a ∈ bfsF states fuel visited queue, ∀ x, stepRel states a x →
        x ∈ bfsF states fuel visited queue := by
  intro fuel
  induction fuel with
  | zero =>
      intro visited queue hq hf hc
      have hq0 : queue = [] := by
        cases queue with
        | nil => rfl
        | cons c r => simp only [List.length_cons] at hf; omega
      subst hq0
      intro a ha x hx
      simp only [bfsF] at ha ⊢
      exact hc a ha (by simp) x hx
  | succ f ih =>
      intro visited queue hq hf hc
      cases queue with
      | nil =>
          intro a ha x hx
          simp only [bfsF] at ha ⊢
          exact hc a ha (by simp) x hx
      | cons cur rest =>
          have hqr : ∀ q ∈ rest, q ∈ visited := fun q hqm =>
            hq q (List.mem_cons.mpr (Or.inr hqm))
          simp only [List.length_cons] at hf
          cases hl : lookupKey states cur with
          | none =>
              have hstep : ∀ x, ¬ stepRel states cur x := by
                rintro x ⟨-, cfg, ts2, hcfg, -, -⟩
                rw [hl] at hcfg
                exact Option.noConfusion hcfg
              simp only [bfsF_succ_cons, hl]
              refine ih visited rest hqr (by omega) ?_
              intro a ha hnr x hx
              by_cases hac : a = cur
              · exact absurd hx (hac ▸ hstep x)
              · exact hc a ha
                  (by simp only [List.mem_cons, not_or]; exact ⟨hac, hnr⟩) x hx
          | some st =>
              cases ht : st.transitions with
              | none =>
                  have hstep : ∀ x, ¬ stepRel states cur x := by
                    rintro x ⟨-, cfg, ts2, hcfg, hts2, -⟩
                    rw [hl] at hcfg
                    injection hcfg with hcfg
                    subst hcfg
                    rw [ht] at hts2
                    exact Option.noConfusion hts2
                  simp only [bfsF_succ_cons, hl, ht]
                  refine ih visited rest hqr (by omega) ?_
                  intro a ha hnr x hx
                  by_cases hac : a = cur
                  · exact absurd hx (hac ▸ hstep x)
                  · exact hc a ha
                      (by simp only [List.mem_cons, not_or]; exact ⟨hac, hnr⟩)
                      x hx
              | some ts =>
                  obtain ⟨δ, h1, h2, hnd, hprops⟩ :=
                    foldAdd_delta (flattenTargets ts) visited []
                  rw [List.nil_append] at h2
                  simp only [bfsF_succ_cons, hl, ht, foldl_transTargets_eq]
                  rw [h1, h2]
                  have hdrop : countRem states (visited ++ δ) + δ.length
                      = countRem states visited :=
                    countRem_drop states visited δ hnd (fun x hxd =>
                      ⟨mem_allTargets_of_flatten hl ht (hprops x hxd).1,
                        (hprops x hxd).2.2⟩)
                  refine ih (visited ++ δ) (rest ++ δ) ?_ ?_ ?_
                  · intro q hqm
                    rcases List.mem_append.mp hqm with hqq | hqd
                    · exact List.mem_append.mpr (Or.inl (hqr q hqq))
                    · exact List.mem_append.mpr (Or.inr hqd)
                  · rw [List.length_append]; omega
                  · intro a ha hnq x hx
                    rcases List.mem_append.mp ha with hav | had
                    · by_cases hac : a = cur
                      · subst hac
                        obtain ⟨hne, cfg, ts2, hcfg, hts2, hxf⟩ := hx
                        rw [hl] at hcfg
                        injection hcfg with hcfg
                        subst hcfg
                        rw [ht] at hts2
                        injection hts2 with hts2
                        subst hts2
                        have := foldAdd_complete (flattenTargets ts)
                          visited [] x hxf hne
                        rwa [h1] at this
                      · have hna : a ∉ rest := fun hr =>
                          hnq (List.mem_append.mpr (Or.inl hr))
                        exact List.mem_append.mpr (Or.inl (hc a hav
                          (by simp only [List.mem_cons, not_or]
                              exact ⟨hac, hna⟩) x hx))
                    · exact absurd (List.mem_append.mpr (Or.inr had)) hnq

end EventBusFSM

namespace EventBusFSM

/-- The BFS of the validator computes exactly the `stepRel`-reachable set:
the supplied fuel outlasts the worklist, so the loop runs to completion. -/
theorem reachable_iff (states : List (String × StateConfig)) (s x : String) :
    x ∈ reachableList states s ↔
      Relation.ReflTransGen (stepRel states) s x := by
  constructor
  · intro hx
    refine bfsF_sound states s (1 + (allTargets states).length) [s] [s]
      ?_ ?_ x hx
    · intro v hv
      rw [List.mem_singleton] at hv
      subst hv
      exact Relation.ReflTransGen.refl
    · intro q hq; exact hq
  · intro hrtg
    have hclosed := bfsF_run states (1 + (allTargets states).length) [s] [s]
      (fun q hq => hq)
      (by simpa using countRem_le states [s])
      (by intro a ha hna; exact absurd ha hna)
    induction hrtg with
    | refl =>
        exact bfsF_grow states (1 + (allTargets states).length) [s] [s] s
          (List.mem_singleton.mpr rfl)
    | tail hab hbc ih => exact hclosed _ ih _ hbc

end EventBusFSM

namespace EventBusFSM

/-- A three-state flow definition whose state `C` is unreachable: used to
exhibit validation accepting a flow that only draws warnings. -/
def c9States : List (String × StateConfig) :=
  [("A", { transitions := some [{ toState := some "B" }] }),
   ("B", {}),
   ("C", {})]

def c9Dfn : FlowDefn :=
  { meta := some (.vstr "demo"), start := some "A", states := some c9States }

/-- A flow definition whose start state is not a key of `states`. -/
def c9BadDfn : FlowDefn :=
  { meta := some (.vstr "demo"), start := some "X", states := some c9States }

/-- C9: `validateFlow` (a) records an error — and hence rejects the flow —
whenever the (nonempty) start state is not a key of `states`; (b) makes
validity depend on the errors alone, never on warnings; (c) warns about a
state exactly when it is not reachable from the start state along the
forward traversal of transition `to` and branch targets (`stepRel`); and
(d) on a concrete flow whose only defect is an unreachable state `C`, it
returns no error, `isValid = true`, and exactly the one warning. -/
theorem c9_validator_start_and_reachability
    (dfn : FlowDefn) (s : String) (sts : List (String × StateConfig))
    (hstart : dfn.start = some s) (hne : s ≠ "")
    (hstates : dfn.states = some sts) :
    ((lookupKey sts s).isNone →
      ("Start state " ++ s ++ " does not exist in states")
          ∈ (validateFlow dfn).errors ∧ (validateFlow dfn).isValid = false) ∧
    (validateFlow dfn).isValid = (validateFlow dfn).errors.isEmpty ∧
    (∀ p ∈ sts, ¬ Relation.ReflTransGen (stepRel sts) s p.1 →
      ("State " ++ p.1 ++ " is unreachable from the start state")
          ∈ (validateFlow dfn).warnings) ∧
    (∀ w ∈ (validateFlow dfn).warnings, ∃ p, p ∈ sts ∧
      w = "State " ++ p.1 ++ " is unreachable from the start state" ∧
      ¬ Relation.ReflTransGen (stepRel sts) s p.1) ∧
    (validateFlow c9Dfn).isValid = true ∧ (validateFlow c9Dfn).errors = [] ∧
    (validateFlow c9Dfn).warnings
      = ["State C is unreachable from the start state"] := by
  refine ⟨?_, rfl, ?_, ?_, by rfl, by rfl, by rfl⟩
  · intro hiso
    have hmem : ("Start state " ++ s ++ " does not exist in states")
        ∈ (validateFlow dfn).errors := by
      simp only [validateFlow, hstart, hstates]
      refine List.mem_append.mpr (Or.inl (List.mem_append.mpr (Or.inl
        (List.mem_append.mpr (Or.inl (List.mem_append.mpr (Or.inr ?_)))))))
      rw [if_pos ⟨hne, hiso⟩]
      exact List.mem_singleton.mpr rfl
    refine ⟨hmem, ?_⟩
    show (validateFlow dfn).errors.isEmpty = false
    cases herr : (validateFlow dfn).errors with
    | nil => exact absurd herr (List.ne_nil_of_mem hmem)
    | cons a l => rfl
  · intro p hp hnr
    simp only [validateFlow, hstart, hstates]
    rw [if_pos hne]
    refine List.mem_filterMap.mpr ⟨p, hp, ?_⟩
    rw [if_pos ?_]
    intro hcon
    exact hnr ((reachable_iff sts s p.1).mp (List.elem_iff.mp hcon))
  · intro w hw
    simp only [validateFlow, hstart, hstates] at hw
    rw [if_pos hne] at hw
    obtain ⟨p, hp, hf⟩ := List.mem_filterMap.mp hw
    by_cases hcon : (reachableList sts s).contains p.1 = true
    · rw [if_neg (not_not_intro hcon)] at hf
      exact Option.noConfusion hf
    · rw [if_pos hcon] at hf
      injection hf with hf
      exact ⟨p, hp, hf.symm, fun hr =>
        hcon (List.elem_iff.mpr ((reachable_iff sts s p.1).mpr hr))⟩

end EventBusFSM

namespace EventBusFSM

theorem c9_validator_start_and_reachability_witness :
    ("State C is unreachable from the start state")
        ∈ (validateFlow c9Dfn).warnings ∧
    ("Start state X does not exist in states") ∈ (validateFlow c9BadDfn).errors ∧
    (validateFlow c9BadDfn).isValid = false ∧
    (validateFlow c9Dfn).isValid = true := by
  have h1 := c9_validator_start_and_reachability c9Dfn "A" c9States rfl
    (by decide) rfl
  have h2 := c9_validator_start_and_reachability c9BadDfn "X" c9States rfl
    (by decide) rfl
  have hC : ¬ Relation.ReflTransGen (stepRel c9States) "A" "C" := fun hr =>
    absurd ((reachable_iff c9States "A" "C").mpr hr) (by decide)
  have hmemC : ("C", ({} : StateConfig)) ∈ c9States :=
    List.mem_cons.mpr (Or.inr (List.mem_cons.mpr (Or.inr
      (List.mem_cons.mpr (Or.inl rfl)))))
  have hbad := h2.1 (by decide)
  exact ⟨h1.2.2.1 ("C", {}) hmemC hC, hbad.1, hbad.2, h1.2.2.2.2.1⟩

end EventBusFSM
